import Mathlib

/-!
Calculadora (src/script.js): shallow embedding and verified properties.

The class `Calculadora` of `src/script.js` is a calculator state machine over
five mutable fields.  Every method is embedded as a function from the state
before the call to the state after it; an early `return` is the branch that
hands the state back unchanged.

The first part (`namespace JS`) models the pieces of the JavaScript runtime the
class relies on: strings, IEEE 754 binary64 numbers with round-to-nearest-even
arithmetic, `parseFloat`, `Number.prototype.toString`, `toFixed`,
`toExponential`, `toLocaleString('en', ...)` and the three regular-expression
replacements the source uses.  All of it is executable.
-/

set_option maxRecDepth 100000

namespace JS

/-- A JavaScript string is a sequence of UTF-16 code units; every string the
calculator handles (digits, sign, point, exponent marker, the operator glyphs
`+ − × ÷` and a few ASCII words) lies in the basic plane, so one `Char` stands
for one code unit. -/
abbrev Str := List Char

/-- A JavaScript Number: NaN, an infinity, or a finite binary64 value
`(-1)^neg * m * 2^e`.  Values produced by `roundToDouble` are in canonical
form: zero is `fin neg 0 0`, otherwise `-1074 ≤ e ≤ 971`, `m < 2^53`, and
`2^52 ≤ m` unless `e = -1074` (subnormal). -/
inductive Number where
  | nan : Number
  | inf (neg : Bool) : Number
  | fin (neg : Bool) (m : Nat) (e : Int) : Number
deriving DecidableEq, Repr

/-- Number of binary digits of `n`, by halving with fuel. -/
def bitLengthAux : Nat → Nat → Nat
  | 0, _ => 0
  | fuel + 1, n => if n = 0 then 0 else bitLengthAux fuel (n / 2) + 1

/-- Number of binary digits of `n` (`0` for `0`). -/
def bitLength (n : Nat) : Nat := bitLengthAux n n

/-- Test `p / q ≥ 2^d` for positive `q`, in integer arithmetic. -/
def geTwoPow (p q : Nat) (d : Int) : Bool :=
  if 0 ≤ d then decide (q * 2 ^ d.toNat ≤ p) else decide (q ≤ p * 2 ^ (-d).toNat)

/-- Quotient `p / q` rounded to the nearest integer, ties to the even one. -/
def divRoundEven (p q : Nat) : Nat :=
  let d := p / q
  let r := p % q
  if 2 * r < q then d
  else if q < 2 * r then d + 1
  else if d % 2 = 0 then d else d + 1

/-- Quotient `p / q` rounded to the nearest integer, ties upwards. -/
def divRoundHalfUp (p q : Nat) : Nat :=
  if q ≤ 2 * (p % q) then p / q + 1 else p / q

/-- The binary64 value nearest to `(-1)^neg * p / q` (round to nearest, ties to
even; overflow gives an infinity, underflow a signed zero). -/
def roundToDouble (neg : Bool) (p q : Nat) : Number :=
  if p = 0 ∨ q = 0 then .fin neg 0 0
  else
    let d : Int := (bitLength p : Int) - (bitLength q : Int)
    let lg : Int := if geTwoPow p q d then d else d - 1
    let e : Int := max (lg - 52) (-1074)
    let m : Nat :=
      if 0 ≤ e then divRoundEven p (q * 2 ^ e.toNat)
      else divRoundEven (p * 2 ^ (-e).toNat) q
    if m = 0 then .fin neg 0 0
    else if m = 2 ^ 53 then
      (if 971 < e + 1 then .inf neg else .fin neg (2 ^ 52) (e + 1))
    else if 971 < e then .inf neg
    else .fin neg m e

/-- The exact value `m * 2^e` as a fraction `(p, q)`. -/
def fracOf (m : Nat) (e : Int) : Nat × Nat :=
  if 0 ≤ e then (m * 2 ^ e.toNat, 1) else (m, 2 ^ (-e).toNat)

/-- The exact value `m * 10^e` as a fraction `(p, q)`. -/
def fracOfDec (m : Nat) (e : Int) : Nat × Nat :=
  if 0 ≤ e then (m * 10 ^ e.toNat, 1) else (m, 10 ^ (-e).toNat)

/-- The integer `(-1)^neg * n`. -/
def signed (neg : Bool) (n : Nat) : Int := if neg then -(n : Int) else (n : Int)

/-- The number literal with decimal digits `m` and decimal exponent `e`, such as
`1e9` (`ofDecimal 1 9`) or `1e-6` (`ofDecimal 1 (-6)`). -/
def ofDecimal (m : Nat) (e : Int) : Number :=
  roundToDouble false (fracOfDec m e).1 (fracOfDec m e).2

/-- The Number of a natural number. -/
def ofNat (n : Nat) : Number := roundToDouble false n 1

/-- The Number of an integer. -/
def ofInt (z : Int) : Number := roundToDouble (decide (z < 0)) z.natAbs 1

/-- Global `isNaN` on a Number. -/
def isNaN : Number → Bool
  | .nan => true
  | _ => false

/-- Global `isFinite` on a Number. -/
def isFinite : Number → Bool
  | .fin _ _ _ => true
  | _ => false

/-- The test `x === 0` on a Number: true for `+0` and `-0`. -/
def isZero : Number → Bool
  | .fin _ m _ => decide (m = 0)
  | _ => false

/-- Unary minus. -/
def neg : Number → Number
  | .nan => .nan
  | .inf s => .inf (!s)
  | .fin s m e => .fin (!s) m e

/-- Function `Math.abs`. -/
def abs : Number → Number
  | .nan => .nan
  | .inf _ => .inf false
  | .fin _ m e => .fin false m e

/-- Binary `+` on Numbers. -/
def add : Number → Number → Number
  | .nan, _ => .nan
  | _, .nan => .nan
  | .inf s, .inf t => if s = t then .inf s else .nan
  | .inf s, .fin _ _ _ => .inf s
  | .fin _ _ _, .inf t => .inf t
  | .fin s m e, .fin t n f =>
    let c : Int := min e f
    let r : Int := signed s (m * 2 ^ (e - c).toNat) + signed t (n * 2 ^ (f - c).toNat)
    if r = 0 then .fin (s && t) 0 0
    else roundToDouble (decide (r < 0)) (fracOf r.natAbs c).1 (fracOf r.natAbs c).2

/-- Binary `-` on Numbers. -/
def sub (x y : Number) : Number := add x (neg y)

/-- Binary `*` on Numbers. -/
def mul : Number → Number → Number
  | .nan, _ => .nan
  | _, .nan => .nan
  | .inf s, .inf t => .inf (s != t)
  | .inf s, .fin t n _ => if n = 0 then .nan else .inf (s != t)
  | .fin s m _, .inf t => if m = 0 then .nan else .inf (s != t)
  | .fin s m e, .fin t n f =>
    roundToDouble (s != t) (fracOf (m * n) (e + f)).1 (fracOf (m * n) (e + f)).2

/-- Binary `/` on Numbers. -/
def div : Number → Number → Number
  | .nan, _ => .nan
  | _, .nan => .nan
  | .inf _, .inf _ => .nan
  | .inf s, .fin t _ _ => .inf (s != t)
  | .fin s _ _, .inf t => .fin (s != t) 0 0
  | .fin s m e, .fin t n f =>
    if n = 0 then (if m = 0 then .nan else .inf (s != t))
    else
      roundToDouble (s != t)
        ((fracOf m e).1 * (fracOf n f).2) ((fracOf m e).2 * (fracOf n f).1)

/-- The comparison `x < y` on Numbers (false when either side is NaN). -/
def lt : Number → Number → Bool
  | .nan, _ => false
  | _, .nan => false
  | .inf s, .inf t => s && !t
  | .inf s, .fin _ _ _ => s
  | .fin _ _ _, .inf t => !t
  | .fin s m e, .fin t n f =>
    let c : Int := min e f
    decide (signed s (m * 2 ^ (e - c).toNat) < signed t (n * 2 ^ (f - c).toNat))

/-- The comparison `x >= y` on Numbers (false when either side is NaN). -/
def ge : Number → Number → Bool
  | .nan, _ => false
  | _, .nan => false
  | x, y => !lt x y

/-- The comparison `x > y` on Numbers. -/
def gt (x y : Number) : Bool := lt y x

/-! ### Strings -/

/-- The character class `[0-9]`. -/
def isDecimalDigit (c : Char) : Bool := decide (48 ≤ c.toNat) && decide (c.toNat ≤ 57)

/-- Value of a decimal digit character. -/
def digitValue (c : Char) : Nat := c.toNat - 48

/-- Value of a string of decimal digits (`0` for the empty string). -/
def digitsValue (ds : Str) : Nat := ds.foldl (fun a c => 10 * a + digitValue c) 0

/-- Decimal digits of a natural number, most significant first. -/
def natDigits (n : Nat) : Str := Nat.toDigits 10 n

/-- Method `String.prototype.includes` for a one-character needle. -/
def includes (s : Str) (c : Char) : Bool := s.any (fun d => decide (d = c))

/-- Method `String.prototype.startsWith` for a one-character needle. -/
def startsWith (s : Str) (c : Char) : Bool :=
  match s with
  | d :: _ => decide (d = c)
  | [] => false

/-- Method `String.prototype.split` with a one-character separator: the list of the
pieces between separators, never empty (`"".split(".")` is `[""]`). -/
def split (sep : Char) : Str → List Str
  | [] => [[]]
  | c :: cs =>
    if c = sep then [] :: split sep cs
    else
      match split sep cs with
      | [] => [[c]]
      | h :: t => (c :: h) :: t

/-- Replacement `s.replace(/[^0-9]/g, "")`: keep the decimal digits only. -/
def keepDigits (s : Str) : Str := s.filter isDecimalDigit

/-- A non-empty run of `0` characters. -/
def allZeros (s : Str) : Bool := !s.isEmpty && s.all (fun c => decide (c = '0'))

/-- Does `/\.?0+$/` match starting at the head of `s`?  The optional point is
greedy; when the head is a point the empty alternative cannot succeed, as
`0+` would then have to start on that point. -/
def matchZerosEnd (s : Str) : Bool :=
  match s with
  | '.' :: t => allZeros t
  | _ => allZeros s

/-- Replacement `s.replace(/\.?0+$/, "")`: the leftmost position at which the
pattern matches is found and everything from there on is removed; without a
match the string is unchanged. -/
def stripZerosEnd : Str → Str
  | [] => []
  | c :: cs => if matchZerosEnd (c :: cs) then [] else c :: stripZerosEnd cs

/-- Match `0+e` at the head of `s`, returning what follows the `e`. -/
def zerosThenE (s : Str) : Option Str :=
  match s with
  | '0' :: t =>
    match t.dropWhile (fun c => decide (c = '0')) with
    | 'e' :: r => some r
    | _ => none
  | _ => none

/-- Match `/\.?0+e/` at the head of `s`, returning what follows the match. -/
def matchZerosE (s : Str) : Option Str :=
  match s with
  | '.' :: t => zerosThenE t
  | _ => zerosThenE s

/-- Replacement `s.replace(/\.?0+e/, "e")` (first match only). -/
def stripZerosE : Str → Str
  | [] => []
  | c :: cs =>
    match matchZerosE (c :: cs) with
    | some r => 'e' :: r
    | none => c :: stripZerosE cs

/-- Replacement `s.replace(/e\+?/, "e")` (first match only). -/
def dropPlusE : Str → Str
  | [] => []
  | 'e' :: '+' :: r => 'e' :: r
  | 'e' :: r => 'e' :: r
  | c :: cs => c :: dropPlusE cs

/-! ### parseFloat -/

/-- White space and line terminators skipped by `parseFloat`. -/
def isWhiteSpace (c : Char) : Bool :=
  let n := c.toNat
  decide (n = 0x9 ∨ n = 0xA ∨ n = 0xB ∨ n = 0xC ∨ n = 0xD ∨ n = 0x20 ∨ n = 0xA0
    ∨ n = 0x1680 ∨ (0x2000 ≤ n ∧ n ≤ 0x200A) ∨ n = 0x2028 ∨ n = 0x2029
    ∨ n = 0x202F ∨ n = 0x205F ∨ n = 0x3000 ∨ n = 0xFEFF)

/-- The exponent part `[eE][+-]?[0-9]+` at the head of `s`, if present. -/
def parseExponent (s : Str) : Int :=
  match s with
  | c :: t =>
    if c = 'e' ∨ c = 'E' then
      match t with
      | '+' :: u =>
        if (u.takeWhile isDecimalDigit).isEmpty then 0
        else (digitsValue (u.takeWhile isDecimalDigit) : Int)
      | '-' :: u =>
        if (u.takeWhile isDecimalDigit).isEmpty then 0
        else -(digitsValue (u.takeWhile isDecimalDigit) : Int)
      | _ =>
        if (t.takeWhile isDecimalDigit).isEmpty then 0
        else (digitsValue (t.takeWhile isDecimalDigit) : Int)
    else 0
  | [] => 0

/-- The longest head of `s` that is a `StrUnsignedDecimalLiteral`
(`Infinity`, `d+.d*(e..)?`, `.d+(e..)?`, `d+(e..)?`), as a Number with the
given sign; NaN when there is none. -/
def parseUnsigned (neg : Bool) (s : Str) : Number :=
  if "Infinity".toList.isPrefixOf s then .inf neg
  else
    let ip := s.takeWhile isDecimalDigit
    let r := s.dropWhile isDecimalDigit
    match r with
    | '.' :: t =>
      let fp := t.takeWhile isDecimalDigit
      if ip.isEmpty && fp.isEmpty then .nan
      else
        let ex : Int := parseExponent (t.dropWhile isDecimalDigit) - (fp.length : Int)
        roundToDouble neg (fracOfDec (digitsValue (ip ++ fp)) ex).1
          (fracOfDec (digitsValue (ip ++ fp)) ex).2
    | _ =>
      if ip.isEmpty then .nan
      else
        roundToDouble neg (fracOfDec (digitsValue ip) (parseExponent r)).1
          (fracOfDec (digitsValue ip) (parseExponent r)).2

/-- Global `parseFloat` on a string. -/
def parseFloat (s : Str) : Number :=
  match s.dropWhile isWhiteSpace with
  | '+' :: t => parseUnsigned false t
  | '-' :: t => parseUnsigned true t
  | t => parseUnsigned false t

/-! ### Number to string conversions -/

/-- Least `j ≥ 1` with `q ≤ p * 10^j`, for `0 < p < q`, by search with fuel. -/
def leadShift : Nat → Nat → Nat → Nat
  | 0, _, _ => 0
  | fuel + 1, p, q => if q ≤ p * 10 then 1 else leadShift fuel (p * 10) q + 1

/-- The decimal exponent `n` of a positive fraction: `10^(n-1) ≤ p/q < 10^n`. -/
def decExp (p q : Nat) : Int :=
  if q ≤ p then ((natDigits (p / q)).length : Int)
  else 1 - (leadShift q p q : Int)

/-- The fraction `(p / q) * 10^d` as a pair. -/
def scaleDec (p q : Nat) (d : Int) : Nat × Nat :=
  if 0 ≤ d then (p * 10 ^ d.toNat, q) else (p, q * 10 ^ (-d).toNat)

/-- Does the decimal `c * 10^(n-k)` convert to the positive Number `x`? -/
def roundTrips (x : Number) (c : Nat) (k : Nat) (n : Int) : Bool :=
  decide (roundToDouble false (fracOfDec c (n - (k : Int))).1
    (fracOfDec c (n - (k : Int))).2 = x)

/-- A `k`-digit candidate that reached `10^k` is `10^(k-1)` one decade up. -/
def carry (k : Nat) (n : Int) (c : Nat) : Nat × Int :=
  if c = 10 ^ k then (10 ^ (k - 1), n + 1) else (c, n)

/-- Search for the digits `s` and the exponent `n` of `Number::toString`: the
least number `k` of digits such that some `k`-digit `s` has `s * 10^(n-k)`
converting to `x`; among the (at most two) such `s` the one nearest to `x`,
the even one on a tie.  Here `x = p / q > 0` and `n0` is its decimal exponent.
Seventeen digits always identify a binary64 value; the fuel-exhausted branch
returns the nearest `k`-digit decimal. -/
def shortestAux (x : Number) (p q : Nat) (n0 : Int) : Nat → Nat → Nat × Int
  | 0, k => carry k n0 (divRoundEven (scaleDec p q ((k : Int) - n0)).1
      (scaleDec p q ((k : Int) - n0)).2)
  | fuel + 1, k =>
    let a := (scaleDec p q ((k : Int) - n0)).1
    let b := (scaleDec p q ((k : Int) - n0)).2
    let lo := a / b
    let hi := lo + 1
    let okLo := roundTrips x lo k n0
    let okHi := roundTrips x hi k n0
    if okLo && okHi then
      (if 2 * (a % b) < b then carry k n0 lo
       else if b < 2 * (a % b) then carry k n0 hi
       else if lo % 2 = 0 then carry k n0 lo else carry k n0 hi)
    else if okLo then carry k n0 lo
    else if okHi then carry k n0 hi
    else shortestAux x p q n0 fuel (k + 1)

/-- The digits `s` and exponent `n` of the shortest decimal that converts to
the positive finite Number `m * 2^e`. -/
def shortest (m : Nat) (e : Int) : Nat × Int :=
  shortestAux (.fin false m e) (fracOf m e).1 (fracOf m e).2
    (decExp (fracOf m e).1 (fracOf m e).2) 16 1

/-- Layout of `Number::toString` (radix 10) for digits `s` and exponent `n`. -/
def layout (s : Nat) (n : Int) : Str :=
  let ds := natDigits s
  let k : Int := (ds.length : Int)
  if k ≤ n ∧ n ≤ 21 then ds ++ List.replicate (n - k).toNat '0'
  else if 0 < n ∧ n ≤ 21 then ds.take n.toNat ++ '.' :: ds.drop n.toNat
  else if -6 < n ∧ n ≤ 0 then '0' :: '.' :: (List.replicate (-n).toNat '0' ++ ds)
  else
    let sgn : Char := if 0 ≤ n - 1 then '+' else '-'
    let ex := natDigits (n - 1).natAbs
    if ds.length = 1 then ds ++ 'e' :: sgn :: ex
    else ds.take 1 ++ '.' :: (ds.drop 1 ++ 'e' :: sgn :: ex)

/-- Method `Number.prototype.toString()` (radix 10). -/
def toString : Number → Str
  | .nan => "NaN".toList
  | .inf s => if s then "-Infinity".toList else "Infinity".toList
  | .fin s m e =>
    if m = 0 then "0".toList
    else if s then '-' :: layout (shortest m e).1 (shortest m e).2
    else layout (shortest m e).1 (shortest m e).2

/-- Method `Number.prototype.toFixed(f)` for `0 ≤ f ≤ 100`. -/
def toFixed (f : Nat) : Number → Str
  | .nan => "NaN".toList
  | .inf s => if s then "-Infinity".toList else "Infinity".toList
  | .fin s m e =>
    let p := (fracOf m e).1
    let q := (fracOf m e).2
    let sgn : Str := if s && decide (m ≠ 0) then ['-'] else []
    if 10 ^ 21 * q ≤ p then toString (.fin s m e)
    else
      let ds := natDigits (divRoundHalfUp (p * 10 ^ f) q)
      if f = 0 then sgn ++ ds
      else
        let ds1 := List.replicate (f + 1 - ds.length) '0' ++ ds
        sgn ++ (ds1.take (ds1.length - f) ++ '.' :: ds1.drop (ds1.length - f))

/-- Method `Number.prototype.toExponential(f)` for `0 ≤ f ≤ 100`. -/
def toExponential (f : Nat) : Number → Str
  | .nan => "NaN".toList
  | .inf s => if s then "-Infinity".toList else "Infinity".toList
  | .fin s m e =>
    let p := (fracOf m e).1
    let q := (fracOf m e).2
    let sgn : Str := if s && decide (m ≠ 0) then ['-'] else []
    let e0 : Int := if m = 0 then 0 else decExp p q - 1
    let t := scaleDec p q ((f : Int) - e0)
    let r := if m = 0 then (0, (0 : Int)) else carry (f + 1) e0 (divRoundHalfUp t.1 t.2)
    let ds := List.replicate (f + 1 - (natDigits r.1).length) '0' ++ natDigits r.1
    let mant : Str := if f = 0 then ds else ds.take 1 ++ '.' :: ds.drop 1
    let esgn : Char := if 0 ≤ r.2 then '+' else '-'
    sgn ++ (mant ++ 'e' :: esgn :: natDigits r.2.natAbs)

/-- Commas between groups of three, on the reversed digit string. -/
def groupRev : Str → Str
  | a :: b :: c :: d :: rest => a :: b :: c :: ',' :: groupRev (d :: rest)
  | l => l

/-- Digits with a comma before each group of three counted from the right. -/
def groupThousands (ds : Str) : Str := (groupRev ds.reverse).reverse

/-- The decimal with digits `s` and exponent `n`, that is `s * 10^(n-k)` for the
`k` digits of `s`, rounded to an integer, ties upwards. -/
def roundDecimal (s : Nat) (n : Int) : Nat :=
  divRoundHalfUp (fracOfDec s (n - ((natDigits s).length : Int))).1
    (fracOfDec s (n - ((natDigits s).length : Int))).2

/-- The call `x.toLocaleString("en", { maximumFractionDigits: 0 })`: the digits
are those of the shortest decimal that converts to `x` (the digits
`Number::toString` prints), rounded to an integer (ties away from zero) and
written in full with grouping commas, with a minus sign for a negative number,
negative zero included.  An integer below `2^53` prints its own digits; a larger
magnitude prints its shortest digits followed by zeros (`1e23` prints as `1`
and twenty-three zeros). -/
def toLocaleString : Number → Str
  | .nan => "NaN".toList
  | .inf s => if s then "-∞".toList else "∞".toList
  | .fin s m e =>
    let v := if m = 0 then 0 else roundDecimal (shortest m e).1 (shortest m e).2
    let ds := groupThousands (natDigits v)
    if s then '-' :: ds else ds

end JS

/-! ## The class `Calculadora` -/

open JS

/-- The mutable fields of a `Calculadora` instance (the two DOM elements are
only written by `actualizarPantalla`; `MAX_DIGITOS` is a constant).  The field
`operacion` is a string or `undefined` (`none`). -/
structure Calculadora where
  valorActual : Str
  valorPrevio : Str
  operacion : Option Str
  operacionCompleta : Str
  operacionRealizada : Bool
deriving DecidableEq, Repr

namespace Calculadora

/-- The field `MAX_DIGITOS`, set once by the constructor. -/
def MAX_DIGITOS : Nat := 9

/-- Truthiness of `this.operacion`: `undefined` and `""` are falsy. -/
def truthy : Option Str → Bool
  | none => false
  | some s => !s.isEmpty

/-- String conversion of `this.operacion` inside a template literal. -/
def opStr : Option Str → Str
  | none => "undefined".toList
  | some s => s

/-- Method `obtenerNumero(numero)` (lines 233-248). -/
def obtenerNumero (numero : Str) : Str :=
  if numero = [] then []
  else
    let partes := split '.' numero
    let enteroStr := partes.headD []
    let decimalStr := partes[1]?
    let enteroNum := parseFloat enteroStr
    if isNaN enteroNum then []
    else
      let parteEntera := toLocaleString enteroNum
      match decimalStr with
      | some d => parteEntera ++ '.' :: d
      | none => parteEntera

/-- The template literal
`${obtenerNumero(valorPrevio)} ${operacion} ${obtenerNumero(valorActual)}`
that `borrar`, `agregarNumero` and `cambiarSigno` assign to
`operacionCompleta` (lines 40, 68, 85, 98). -/
def expresion (c : Calculadora) : Str :=
  obtenerNumero c.valorPrevio ++ ' ' :: (opStr c.operacion ++ ' ' :: obtenerNumero c.valorActual)

/-- The statement `if (this.operacion) { this.operacionCompleta = ... }` that
closes `borrar`, `agregarNumero` and `cambiarSigno`. -/
def actualizarOperacionCompleta (c : Calculadora) : Calculadora :=
  if truthy c.operacion then { c with operacionCompleta := expresion c } else c

/-- Method `borrarTodo()` (lines 21-27). -/
def borrarTodo (_c : Calculadora) : Calculadora :=
  { valorActual := "0".toList
    valorPrevio := []
    operacion := none
    operacionCompleta := []
    operacionRealizada := false }

/-- The state the constructor leaves: `borrarTodo()` on a new object. -/
def inicial : Calculadora :=
  { valorActual := "0".toList
    valorPrevio := []
    operacion := none
    operacionCompleta := []
    operacionRealizada := false }

/-- Method `borrar()` (lines 32-42). -/
def borrar (c : Calculadora) : Calculadora :=
  actualizarOperacionCompleta
    { c with
      valorActual :=
        if c.valorActual.length = 1 ∨ (c.valorActual.length = 2 ∧ startsWith c.valorActual '-')
        then "0".toList
        else c.valorActual.dropLast
      operacionRealizada := false }

/-- The body of `agregarNumero` after the optional `borrarTodo()` of its first
statement (lines 53-86). -/
def agregarNumeroCuerpo (c : Calculadora) (numero : Str) : Calculadora :=
  let hasDecimal := includes c.valorActual '.'
  let partes := split '.' c.valorActual
  let integerPart := partes.headD []
  let decimalPart := partes[1]?
  let integerDigits := (keepDigits integerPart).length
  let decimalDigits :=
    match decimalPart with
    | some d => d.length
    | none => 0
  if numero = ".".toList then
    if hasDecimal then c
    else
      actualizarOperacionCompleta
        { c with
          valorActual :=
            if c.valorActual = "0".toList then "0.".toList else c.valorActual ++ ".".toList
          operacionRealizada := false }
  else if decide (MAX_DIGITOS ≤ integerDigits) && !hasDecimal then c
  else if hasDecimal && decide (8 ≤ decimalDigits) then c
  else
    actualizarOperacionCompleta
      { c with
        valorActual :=
          if c.valorActual = "0".toList ∧ numero ≠ ".".toList then numero
          else c.valorActual ++ numero
        operacionRealizada := false }

/-- Method `agregarNumero(numero)` (lines 48-87). -/
def agregarNumero (c : Calculadora) (numero : Str) : Calculadora :=
  if c.operacionRealizada && c.operacion.isNone then agregarNumeroCuerpo (borrarTodo c) numero
  else agregarNumeroCuerpo c numero

/-- Method `cambiarSigno()` (lines 92-100). -/
def cambiarSigno (c : Calculadora) : Calculadora :=
  if c.valorActual = "0".toList then c
  else
    actualizarOperacionCompleta
      { c with
        valorActual :=
          if startsWith c.valorActual '-' then c.valorActual.drop 1
          else '-' :: c.valorActual }

/-- Method `formatearResultado(resultado)` (lines 205-226). -/
def formatearResultado (resultado : Number) : Str :=
  if isNaN resultado then "Error".toList
  else if !isFinite resultado then "Infinity".toList
  else
    let absResultado := abs resultado
    if ge absResultado (ofDecimal 1 9)
        || (gt absResultado (ofNat 0) && lt absResultado (ofDecimal 1 (-6))) then
      dropPlusE (stripZerosE (toExponential 6 resultado))
    else
      let resultadoStr := JS.toString resultado
      let resultadoStr :=
        if includes resultadoStr '.' then
          (if 8 < ((split '.' resultadoStr).getD 1 []).length then toFixed 8 resultado
           else resultadoStr)
        else resultadoStr
      stripZerosEnd resultadoStr

/-- The tail of `calcular` after a `case` has produced `resultado`
(lines 194-197). -/
def terminarCalculo (c : Calculadora) (resultado : Number) : Calculadora :=
  { c with
    valorActual := formatearResultado resultado
    operacion := none
    valorPrevio := []
    operacionRealizada := true }

/-- Method `calcular()` (lines 158-198). -/
def calcular (c : Calculadora) : Calculadora :=
  let previo := parseFloat c.valorPrevio
  let actual := parseFloat c.valorActual
  if isNaN previo || isNaN actual then c
  else
    let c1 : Calculadora :=
      { c with operacionCompleta := expresion c ++ " =".toList }
    if c.operacion = some "+".toList then terminarCalculo c1 (add previo actual)
    else if c.operacion = some "−".toList then terminarCalculo c1 (sub previo actual)
    else if c.operacion = some "×".toList then terminarCalculo c1 (mul previo actual)
    else if c.operacion = some "÷".toList then
      if isZero actual then
        { valorActual := "Error".toList
          operacionCompleta := "No se puede dividir por 0".toList
          operacion := none
          valorPrevio := []
          operacionRealizada := true }
      else terminarCalculo c1 (div previo actual)
    else c1

/-- Method `elegirOperacion(operacion)` (lines 139-153). -/
def elegirOperacion (c : Calculadora) (operacion : Str) : Calculadora :=
  if c.valorActual = "0".toList ∧ c.valorPrevio = [] then c
  else
    let c1 : Calculadora :=
      { c with
        operacionCompleta :=
          obtenerNumero (if c.valorPrevio.isEmpty then c.valorActual else c.valorPrevio)
            ++ ' ' :: operacion }
    let c2 := if c1.valorPrevio ≠ [] then calcular c1 else c1
    { c2 with
      operacion := some operacion
      valorPrevio := c2.valorActual
      valorActual := "0".toList
      operacionRealizada := false }

/-- Method `calcularPorcentaje()` (lines 107-133). -/
def calcularPorcentaje (c : Calculadora) : Calculadora :=
  if c.valorActual = "0".toList then c
  else
    let valorActual := parseFloat c.valorActual
    if truthy c.operacion && !c.valorPrevio.isEmpty then
      let valorPrevio := parseFloat c.valorPrevio
      let c1 : Calculadora :=
        if c.operacion = some "+".toList ∨ c.operacion = some "-".toList
            ∨ c.operacion = some "−".toList then
          { c with valorActual := JS.toString (div (mul valorPrevio valorActual) (ofNat 100)) }
        else if c.operacion = some "×".toList ∨ c.operacion = some "÷".toList then
          { c with valorActual := JS.toString (div valorActual (ofNat 100)) }
        else c
      { c1 with
        operacionCompleta :=
          expresion c1 ++ (" (".toList ++ (obtenerNumero c1.valorActual ++ "%)".toList)) }
    else
      let c1 : Calculadora :=
        { c with valorActual := JS.toString (div valorActual (ofNat 100)) }
      { c1 with operacionCompleta := obtenerNumero c1.valorActual ++ "%".toList }

/-- Method `actualizarPantalla()` (lines 253-259): the texts written to the
upper and the lower display element. -/
def actualizarPantalla (c : Calculadora) : Str × Str :=
  (c.operacionCompleta,
   if (obtenerNumero c.valorActual).isEmpty then "0".toList else obtenerNumero c.valorActual)

/-- The public actions a user can trigger. -/
inductive Accion where
  | agregarNumero (numero : Str) : Accion
  | cambiarSigno : Accion
  | calcularPorcentaje : Accion
  | elegirOperacion (operacion : Str) : Accion
  | calcular : Accion
  | borrar : Accion
  | borrarTodo : Accion
deriving DecidableEq, Repr

/-- One action applied to a state. -/
def ejecutar (c : Calculadora) : Accion → Calculadora
  | .agregarNumero n => c.agregarNumero n
  | .cambiarSigno => c.cambiarSigno
  | .calcularPorcentaje => c.calcularPorcentaje
  | .elegirOperacion op => c.elegirOperacion op
  | .calcular => c.calcular
  | .borrar => c.borrar
  | .borrarTodo => c.borrarTodo

/-- A sequence of actions applied from left to right. -/
def ejecutarTodas (c : Calculadora) (as : List Accion) : Calculadora :=
  as.foldl ejecutar c

/-! ### Vocabulary of the statements -/

/-- A keypad token for `agregarNumero`: one decimal digit or the point. -/
def esToken (t : Str) : Bool :=
  match t with
  | [d] => decide (d = '.') || isDecimalDigit d
  | _ => false

/-- The integer portion of an entry: the characters before any point. -/
def porcionEntera (s : Str) : Str := s.takeWhile (fun c => c != '.')

/-- The fractional portion of an entry: the characters after the first point. -/
def porcionDecimal (s : Str) : Str := (s.dropWhile (fun c => c != '.')).drop 1

/-- Shape of an entry built from keypad tokens: at most nine digits, optionally
followed by a point and at most eight digits. -/
def EntradaAcotada (s : Str) : Prop :=
  ∃ ip fp : Str, (∀ c ∈ ip, isDecimalDigit c = true) ∧ (∀ c ∈ fp, isDecimalDigit c = true)
    ∧ ip.length ≤ 9 ∧ fp.length ≤ 8 ∧ (s = ip ∨ s = ip ++ '.' :: fp)

/-- A string with its grouping commas removed. -/
def sinComas (s : Str) : Str := s.filter (fun c => c != ',')

/-- An action as the buttons and keys issue it: `agregarNumero` receives one
decimal digit or the point (every other action is unrestricted). -/
def accionTeclado : Accion → Bool
  | .agregarNumero t => esToken t
  | _ => true

end Calculadora

/-! ## Verified properties -/

/-! ### Lemmas on the runtime model -/

namespace JS

/-- With enough fuel `Nat.toDigitsCore` prepends the decimal digits of `n`. -/
theorem toDigitsCore_eq (n : Nat) :
    ∀ fuel ds, n < fuel → Nat.toDigitsCore 10 fuel n ds = natDigits n ++ ds := by
  induction n using Nat.strong_induction_on with
  | _ n ih =>
    intro fuel ds hf
    cases fuel with
    | zero => omega
    | succ f =>
      unfold natDigits Nat.toDigits
      by_cases h0 : n / 10 = 0
      · simp [Nat.toDigitsCore, h0]
      · have hlt : n / 10 < n := Nat.div_lt_self (by omega) (by decide)
        have h1 := ih (n / 10) hlt f (Nat.digitChar (n % 10) :: ds) (by omega)
        have h2 := ih (n / 10) hlt n [Nat.digitChar (n % 10)] hlt
        simp only [Nat.toDigitsCore, h0, if_false]
        rw [h1, h2]
        simp

/-- A number below ten has one digit. -/
theorem natDigits_lt_ten (n : Nat) (h : n < 10) : natDigits n = [Nat.digitChar n] := by
  have h0 : n / 10 = 0 := Nat.div_eq_of_lt h
  have hm : n % 10 = n := Nat.mod_eq_of_lt h
  simp [natDigits, Nat.toDigits, Nat.toDigitsCore, h0, hm]

/-- The digits of `n ≥ 10` are those of `n / 10` followed by the last one. -/
theorem natDigits_ge_ten (n : Nat) (h : 10 ≤ n) :
    natDigits n = natDigits (n / 10) ++ [Nat.digitChar (n % 10)] := by
  have h0 : n / 10 ≠ 0 := by
    have : 1 ≤ n / 10 := (Nat.le_div_iff_mul_le (by decide)).mpr (by omega)
    omega
  have hlt : n / 10 < n := Nat.div_lt_self (by omega) (by decide)
  have := toDigitsCore_eq (n / 10) n [Nat.digitChar (n % 10)] hlt
  simp only [natDigits, Nat.toDigits, Nat.toDigitsCore, h0, if_false]
  exact this

/-- The ten decimal digit characters. -/
theorem digit_cases (c : Char) (h : isDecimalDigit c = true) :
    c = '0' ∨ c = '1' ∨ c = '2' ∨ c = '3' ∨ c = '4' ∨ c = '5' ∨ c = '6' ∨ c = '7'
      ∨ c = '8' ∨ c = '9' := by
  simp only [isDecimalDigit, Bool.and_eq_true, decide_eq_true_eq] at h
  have hc : Char.ofNat c.toNat = c := Char.ofNat_toNat c
  obtain ⟨h1, h2⟩ := h
  generalize c.toNat = n at h1 h2 hc
  interval_cases n <;> subst hc <;> decide

/-- The digit character of a digit value. -/
theorem digitChar_isDecimalDigit (d : Nat) (h : d < 10) :
    isDecimalDigit (Nat.digitChar d) = true ∧ digitValue (Nat.digitChar d) = d
      ∧ (d ≠ 0 → Nat.digitChar d ≠ '0') := by
  interval_cases d <;> decide

/-- A digit character is the digit character of its value, which is below
ten. -/
theorem digitChar_digitValue (c : Char) (h : isDecimalDigit c = true) :
    Nat.digitChar (digitValue c) = c ∧ digitValue c < 10 ∧ (c ≠ '0' → digitValue c ≠ 0) := by
  rcases digit_cases c h with h | h | h | h | h | h | h | h | h | h <;> subst h <;> decide

/-- The digits of a number are decimal digit characters, and there is at least
one. -/
theorem natDigits_digits (n : Nat) :
    natDigits n ≠ [] ∧ ∀ c ∈ natDigits n, isDecimalDigit c = true := by
  induction n using Nat.strong_induction_on with
  | _ n ih =>
    by_cases h : n < 10
    · rw [natDigits_lt_ten n h]
      refine ⟨by simp, ?_⟩
      intro c hc
      rw [List.mem_singleton.mp hc]
      exact (digitChar_isDecimalDigit n h).1
    · have hge : 10 ≤ n := by omega
      rw [natDigits_ge_ten n hge]
      refine ⟨by simp, ?_⟩
      intro c hc
      rcases List.mem_append.mp hc with hc | hc
      · exact (ih (n / 10) (Nat.div_lt_self (by omega) (by decide))).2 c hc
      · rw [List.mem_singleton.mp hc]
        exact (digitChar_isDecimalDigit (n % 10) (Nat.mod_lt n (by decide))).1

/-- The first digit of a positive number is not zero. -/
theorem natDigits_head (n : Nat) (hn : 0 < n) :
    ∃ d t, natDigits n = d :: t ∧ d ≠ '0' := by
  induction n using Nat.strong_induction_on with
  | _ n ih =>
    by_cases h : n < 10
    · rw [natDigits_lt_ten n h]
      exact ⟨_, [], rfl, (digitChar_isDecimalDigit n h).2.2 (by omega)⟩
    · have hge : 10 ≤ n := by omega
      have hpos : 0 < n / 10 := (Nat.le_div_iff_mul_le (by decide)).mpr (by omega)
      obtain ⟨d, t, hdt, hd⟩ := ih (n / 10) (Nat.div_lt_self (by omega) (by decide)) hpos
      rw [natDigits_ge_ten n hge, hdt]
      exact ⟨d, t ++ [Nat.digitChar (n % 10)], rfl, hd⟩

/-- A number with at least `k + 1` decimal places has at least `k + 1` digits. -/
theorem natDigits_length_ge (k : Nat) : ∀ n, 10 ^ k ≤ n → k + 1 ≤ (natDigits n).length := by
  induction k with
  | zero =>
    intro n _
    have := (natDigits_digits n).1
    exact List.length_pos.mpr this
  | succ k ih =>
    intro n hn
    have h10 : 10 ≤ n := by
      have : 10 ^ 1 ≤ 10 ^ (k + 1) := Nat.pow_le_pow_right (by decide) (by omega)
      omega
    have hdiv : 10 ^ k ≤ n / 10 := by
      apply (Nat.le_div_iff_mul_le (by decide)).mpr
      rw [← Nat.pow_succ]; exact hn
    rw [natDigits_ge_ten n h10, List.length_append, List.length_singleton]
    have := ih (n / 10) hdiv
    omega

/-- A positive number is at least the power of ten its digit count gives. -/
theorem natDigits_pow_le (n : Nat) (hn : 0 < n) : 10 ^ ((natDigits n).length - 1) ≤ n := by
  induction n using Nat.strong_induction_on with
  | _ n ih =>
    by_cases h : n < 10
    · rw [natDigits_lt_ten n h]
      simpa using hn
    · have hge : 10 ≤ n := by omega
      have hpos : 0 < n / 10 := (Nat.le_div_iff_mul_le (by decide)).mpr (by omega)
      have h1 := ih (n / 10) (Nat.div_lt_self (by omega) (by decide)) hpos
      have hlen : 1 ≤ (natDigits (n / 10)).length :=
        List.length_pos.mpr (natDigits_digits (n / 10)).1
      rw [natDigits_ge_ten n hge, List.length_append, List.length_singleton]
      have hk : (natDigits (n / 10)).length + 1 - 1 = ((natDigits (n / 10)).length - 1) + 1 := by
        omega
      rw [hk, Nat.pow_succ]
      have := Nat.div_mul_le_self n 10
      calc 10 ^ ((natDigits (n / 10)).length - 1) * 10 ≤ n / 10 * 10 :=
            Nat.mul_le_mul_right 10 h1
        _ ≤ n := this

/-- Value of a digit string extended by one digit. -/
theorem digitsValue_append (ds : Str) (c : Char) :
    digitsValue (ds ++ [c]) = 10 * digitsValue ds + digitValue c := by
  simp [digitsValue, List.foldl_append]

/-- A string of `k` digits has a value below `10^k`. -/
theorem digitsValue_lt (ds : Str) (h : ∀ c ∈ ds, isDecimalDigit c = true) :
    digitsValue ds < 10 ^ ds.length := by
  induction ds using List.reverseRecOn with
  | nil => decide
  | append_singleton t c ih =>
    have ht := ih (fun x hx => h x (List.mem_append_left _ hx))
    have hc := (digitChar_digitValue c (h c (by simp))).2.1
    rw [digitsValue_append, List.length_append, List.length_singleton, Nat.pow_succ]
    omega

/-- Printing the value of a digit string without a leading zero gives the
string back. -/
theorem natDigits_digitsValue (ds : Str) (h : ∀ c ∈ ds, isDecimalDigit c = true) :
    ∀ d t, ds = d :: t → d ≠ '0' → natDigits (digitsValue ds) = ds ∧ 0 < digitsValue ds := by
  induction ds using List.reverseRecOn with
  | nil => intro d t h0; cases h0
  | append_singleton u c ih =>
    intro d t hdt hd
    have hc := digitChar_digitValue c (h c (by simp))
    rw [digitsValue_append]
    cases u with
    | nil =>
      simp only [List.nil_append, List.cons.injEq] at hdt
      have hcd : c = d := hdt.1
      have hv : digitsValue [] = 0 := rfl
      rw [hv, Nat.mul_zero, Nat.zero_add, natDigits_lt_ten _ hc.2.1, hc.1]
      have := hc.2.2 (by rw [hcd]; exact hd)
      exact ⟨rfl, by omega⟩
    | cons a v =>
      have had : a = d := by
        simp only [List.cons_append, List.cons.injEq] at hdt
        exact hdt.1
      obtain ⟨h1, h2⟩ := ih (fun x hx => h x (List.mem_append_left _ hx)) a v rfl
        (by rw [had]; exact hd)
      have hge : 10 ≤ 10 * digitsValue (a :: v) + digitValue c := by omega
      have hdiv : (10 * digitsValue (a :: v) + digitValue c) / 10 = digitsValue (a :: v) := by
        omega
      have hmod : (10 * digitsValue (a :: v) + digitValue c) % 10 = digitValue c := by
        omega
      rw [natDigits_ge_ten _ hge, hdiv, hmod, h1, hc.1]
      exact ⟨rfl, by omega⟩

/-- Zero has no binary digits, whatever the fuel. -/
theorem bitLengthAux_zero (fuel : Nat) : bitLengthAux fuel 0 = 0 := by
  cases fuel <;> simp [bitLengthAux]

/-- With enough fuel the bit length `b` of a positive `n` satisfies
`2^(b-1) ≤ n < 2^b`. -/
theorem bitLengthAux_bounds (n : Nat) :
    ∀ fuel, n ≤ fuel → 0 < n →
      1 ≤ bitLengthAux fuel n ∧ 2 ^ (bitLengthAux fuel n - 1) ≤ n
        ∧ n < 2 ^ bitLengthAux fuel n := by
  induction n using Nat.strong_induction_on with
  | _ n ih =>
    intro fuel hf hn
    cases fuel with
    | zero => omega
    | succ f =>
      have hn0 : n ≠ 0 := by omega
      simp only [bitLengthAux, if_neg hn0]
      by_cases h2 : n / 2 = 0
      · have h1 : n = 1 := by omega
        rw [h2, bitLengthAux_zero, h1]
        decide
      · have hlt : n / 2 < n := Nat.div_lt_self hn (by decide)
        obtain ⟨hb1, hb2, hb3⟩ := ih (n / 2) hlt f (by omega) (by omega)
        generalize bitLengthAux f (n / 2) = b at hb1 hb2 hb3
        refine ⟨by omega, ?_, ?_⟩
        · have hb : b + 1 - 1 = (b - 1) + 1 := by omega
          rw [hb, Nat.pow_succ]
          omega
        · rw [Nat.pow_succ]
          omega

/-- Bounds on the bit length of a positive number. -/
theorem bitLength_bounds (n : Nat) (hn : 0 < n) :
    1 ≤ bitLength n ∧ 2 ^ (bitLength n - 1) ≤ n ∧ n < 2 ^ bitLength n :=
  bitLengthAux_bounds n n (Nat.le_refl n) hn

/-- Rounding to the nearest integer leaves an integer alone. -/
theorem divRoundEven_one (x : Nat) : divRoundEven x 1 = x := by
  simp [divRoundEven, Nat.mod_one]

/-- Rounding half up recovers `v` from `v * d / d`. -/
theorem divRoundHalfUp_mul (v d : Nat) (hd : 0 < d) : divRoundHalfUp (v * d) d = v := by
  have hm : v * d % d = 0 := Nat.mul_mod_left v d
  have hq : v * d / d = v := Nat.mul_div_cancel v hd
  unfold divRoundHalfUp
  rw [hm, hq, if_neg (by omega)]

/-- A positive integer below `2^53` is a binary64 value: it converts to
`v * 2^k * 2^(-k)` for some `k ≤ 52`. -/
theorem roundToDouble_nat (neg : Bool) (v : Nat) (h0 : 0 < v) (h53 : v < 2 ^ 53) :
    ∃ k : Nat, k ≤ 52 ∧ roundToDouble neg v 1 = .fin neg (v * 2 ^ k) (-(k : Int)) := by
  obtain ⟨hb1, hb2, hb3⟩ := bitLength_bounds v h0
  have hb53 : bitLength v ≤ 53 := by
    by_contra hc
    have : 2 ^ 53 ≤ 2 ^ (bitLength v - 1) := Nat.pow_le_pow_right (by decide) (by omega)
    omega
  generalize hbv : bitLength v = b at hb1 hb2 hb3 hb53
  have hone : bitLength 1 = 1 := by decide
  refine ⟨53 - b, by omega, ?_⟩
  have hd : ((b : Int) - ((1 : Nat) : Int)) = ((b - 1 : Nat) : Int) := by omega
  have hge : geTwoPow v 1 ((b - 1 : Nat) : Int) = true := by
    simp only [geTwoPow, Int.natCast_nonneg, if_true, Int.toNat_ofNat, Nat.one_mul,
      decide_eq_true_eq]
    exact hb2
  have he : max (((b - 1 : Nat) : Int) - 52) (-1074) = -((53 - b : Nat) : Int) := by omega
  have hv0 : ¬ (v = 0 ∨ (1 : Nat) = 0) := by omega
  unfold roundToDouble
  simp only [if_neg hv0, hbv, hone, hd, hge, if_true, he]
  by_cases hk : 53 - b = 0
  · have hm : v ≠ 9007199254740992 := by
      have : (2 : Nat) ^ 53 = 9007199254740992 := by norm_num
      omega
    have hv : v ≠ 0 := by omega
    simp [hk, divRoundEven_one, hm, hv]
  · have hneg : ¬ (0 ≤ -((53 - b : Nat) : Int)) := by omega
    have hto : (- -((53 - b : Nat) : Int)).toNat = 53 - b := by omega
    have hpos : 0 < 2 ^ (53 - b) := Nat.pow_pos (by decide)
    have hm0 : v * 2 ^ (53 - b) ≠ 0 := by
      have := Nat.mul_pos h0 hpos
      omega
    have hlt : v * 2 ^ (53 - b) < 2 ^ 53 := by
      calc v * 2 ^ (53 - b) < 2 ^ b * 2 ^ (53 - b) := Nat.mul_lt_mul_of_pos_right hb3 hpos
        _ = 2 ^ 53 := by rw [← Nat.pow_add]; congr 1; omega
    have hm53 : v * 2 ^ (53 - b) ≠ 2 ^ 53 := by omega
    have h971 : ¬ (971 < -((53 - b : Nat) : Int)) := by omega
    simp only [if_neg hneg, hto, divRoundEven_one, if_neg hm0, if_neg hm53, if_neg h971]

/-- A positive number is below the power of ten of its digit count. -/
theorem natDigits_lt_pow (n : Nat) : n < 10 ^ (natDigits n).length := by
  by_contra hc
  have := natDigits_length_ge (natDigits n).length n (by omega)
  omega

/-- A number between `10^(k-1)` and `10^k` has `k` digits. -/
theorem natDigits_length_eq (k c : Nat) (hk : 1 ≤ k) (h1 : 10 ^ (k - 1) ≤ c) (h2 : c < 10 ^ k) :
    (natDigits c).length = k := by
  have hge := natDigits_length_ge (k - 1) c h1
  have hc0 : 0 < c := Nat.lt_of_lt_of_le (Nat.pow_pos (by decide)) h1
  have hle := natDigits_pow_le c hc0
  have : (natDigits c).length - 1 < k := by
    by_contra hcon
    have h3 : 10 ^ k ≤ 10 ^ ((natDigits c).length - 1) :=
      Nat.pow_le_pow_right (by decide) (by omega)
    omega
  omega

/-- An integer that converts to the binary64 value `v * 2^j * 2^(-j)` is `v`. -/
theorem roundToDouble_nat_inj (P v j : Nat) (hv : 0 < v)
    (h : roundToDouble false P 1 = .fin false (v * 2 ^ j) (-(j : Int))) : P = v := by
  have hpos : 0 < 2 ^ j := Nat.pow_pos (by decide)
  have hvj : 0 < v * 2 ^ j := Nat.mul_pos hv hpos
  unfold roundToDouble at h
  by_cases hP : P = 0 ∨ (1 : Nat) = 0
  · rw [if_pos hP] at h
    injection h with _ h2 _
    omega
  · rw [if_neg hP] at h
    simp only [] at h
    generalize max _ (-1074 : Int) = e at h
    generalize hm : (if 0 ≤ e then _ else _) = m at h
    simp only [Nat.one_mul, divRoundEven_one] at hm
    by_cases h0 : m = 0
    · rw [if_pos h0] at h
      injection h with _ h2 _
      omega
    · rw [if_neg h0] at h
      by_cases h53 : m = 2 ^ 53
      · rw [if_pos h53] at h
        by_cases h971 : 971 < e + 1
        · rw [if_pos h971] at h
          exact Number.noConfusion h
        · rw [if_neg h971] at h
          injection h with _ h2 h3
          have hneg : ¬ (0 ≤ e) := by omega
          have hto : (-e).toNat = j + 1 := by omega
          rw [if_neg hneg, hto, h53] at hm
          have h4 : P * 2 ^ (j + 1) = v * 2 ^ (j + 1) := by
            rw [hm, Nat.pow_succ 2 j, ← Nat.mul_assoc, ← h2]
            norm_num
          exact Nat.eq_of_mul_eq_mul_right (Nat.pow_pos (by decide)) h4
      · rw [if_neg h53] at h
        by_cases h971 : 971 < e
        · rw [if_pos h971] at h
          exact Number.noConfusion h
        · rw [if_neg h971] at h
          injection h with _ h2 h3
          by_cases hj : j = 0
          · subst hj
            have he : e = 0 := by omega
            subst he
            rw [h2] at hm
            simpa [divRoundEven_one] using hm
          · have hneg : ¬ (0 ≤ e) := by omega
            have hto : (-e).toNat = j := by omega
            rw [if_neg hneg, hto, h2] at hm
            exact Nat.eq_of_mul_eq_mul_right hpos hm

/-- Rounding half up leaves an integer alone. -/
theorem divRoundHalfUp_one (x : Nat) : divRoundHalfUp x 1 = x := by
  simp [divRoundHalfUp, Nat.mod_one]

/-- A `k`-digit candidate `c` whose decimal `c * 10^(L-k)` is the `L`-digit
integer `v` stands, after `carry`, for `v`. -/
theorem roundDecimal_carry (v k L c : Nat) (hk : 1 ≤ k) (hkL : k ≤ L)
    (hvL : 10 ^ (L - 1) ≤ v) (hvU : v < 10 ^ L) (hc : c * 10 ^ (L - k) = v) :
    roundDecimal (carry k (L : Int) c).1 (carry k (L : Int) c).2 = v := by
  have ht : 0 < 10 ^ (L - k) := Nat.pow_pos (by decide)
  have hU : 10 ^ L = 10 ^ k * 10 ^ (L - k) := by
    rw [← Nat.pow_add]; congr 1; omega
  have hL : 10 ^ (L - 1) = 10 ^ (k - 1) * 10 ^ (L - k) := by
    rw [← Nat.pow_add]; congr 1; omega
  have hc2 : c < 10 ^ k := by
    apply Nat.lt_of_mul_lt_mul_right
    rw [hc, ← hU]; exact hvU
  have hc1 : 10 ^ (k - 1) ≤ c := by
    apply Nat.le_of_mul_le_mul_right _ ht
    rw [hc, ← hL]; exact hvL
  have hlen := natDigits_length_eq k c hk hc1 hc2
  have hne : c ≠ 10 ^ k := by omega
  have h0 : (0 : Int) ≤ (L : Int) - (k : Int) := by omega
  have hto : ((L : Int) - (k : Int)).toNat = L - k := by omega
  unfold carry roundDecimal
  simp only [if_neg hne, hlen, fracOfDec, if_pos h0, hto, hc, divRoundHalfUp_one]

/-- The digit search on a positive integer `v` of at most sixteen digits that
is a binary64 value: the digits found stand for `v`. -/
theorem shortestAux_nat (x : Number) (v w : Nat) (hv : 0 < v) (hw : 0 < w)
    (hrt : roundToDouble false v 1 = x)
    (hinj : ∀ P, roundToDouble false P 1 = x → P = v) :
    ∀ fuel k, 1 ≤ k → k ≤ (natDigits v).length → (natDigits v).length < k + fuel →
      roundDecimal (shortestAux x (v * w) w ((natDigits v).length : Int) fuel k).1
        (shortestAux x (v * w) w ((natDigits v).length : Int) fuel k).2 = v := by
  have hvU := natDigits_lt_pow v
  have hvL := natDigits_pow_le v hv
  generalize (natDigits v).length = L at hvU hvL
  intro fuel
  induction fuel with
  | zero => intro k h1 h2 h3; omega
  | succ f ih =>
    intro k h1 h2 h3
    have h0 : (0 : Int) ≤ (L : Int) - (k : Int) := by omega
    have hto : ((L : Int) - (k : Int)).toNat = L - k := by omega
    have key : ∀ c, roundTrips x c k (L : Int) = true →
        roundDecimal (carry k (L : Int) c).1 (carry k (L : Int) c).2 = v := by
      intro c hc
      unfold roundTrips at hc
      have hc2 := of_decide_eq_true hc
      simp only [fracOfDec, if_pos h0, hto] at hc2
      exact roundDecimal_carry v k L c h1 h2 hvL hvU (hinj _ hc2)
    rw [shortestAux]
    generalize hlo : (scaleDec (v * w) w ((k : Int) - (L : Int))).1
      / (scaleDec (v * w) w ((k : Int) - (L : Int))).2 = lo
    by_cases hokLo : roundTrips x lo k (L : Int) = true
    · by_cases hokHi : roundTrips x (lo + 1) k (L : Int) = true
      · simp only [hokLo, hokHi, Bool.and_self, if_true]
        split
        · exact key _ hokLo
        · split
          · exact key _ hokHi
          · split
            · exact key _ hokLo
            · exact key _ hokHi
      · simp only [hokLo, hokHi, Bool.and_false, Bool.false_eq_true, if_false, if_true]
        exact key _ hokLo
    · by_cases hokHi : roundTrips x (lo + 1) k (L : Int) = true
      · simp only [hokLo, hokHi, Bool.false_and, Bool.false_eq_true, if_false, if_true]
        exact key _ hokHi
      · simp only [hokLo, hokHi, Bool.false_and, Bool.false_eq_true, if_false]
        have hk : k ≠ L := by
          intro hkL
          apply hokLo
          subst hkL
          have hlov : lo = v := by
            rw [← hlo]
            simp only [scaleDec, Int.sub_self, Int.le_refl, if_true, Int.toNat_zero,
              Nat.pow_zero, Nat.mul_one]
            exact Nat.mul_div_cancel v hw
          unfold roundTrips
          simp only [hlov, fracOfDec, Int.sub_self, Int.le_refl, if_true, Int.toNat_zero,
            Nat.pow_zero, Nat.mul_one, hrt, decide_True]
        have := ih (k + 1) (by omega) (by omega) (by omega)
        simpa using this

/-- The exact fraction of `v * 2^j * 2^(-j)` is `v * w / w` for some `w > 0`. -/
theorem fracOf_nat (v j : Nat) :
    ∃ w, 0 < w ∧ fracOf (v * 2 ^ j) (-(j : Int)) = (v * w, w) := by
  by_cases hj : j = 0
  · subst hj
    exact ⟨1, by decide, by simp [fracOf]⟩
  · have hneg : ¬ (0 ≤ -(j : Int)) := by omega
    have hto : (- -(j : Int)).toNat = j := by omega
    exact ⟨2 ^ j, Nat.pow_pos (by decide), by simp only [fracOf, if_neg hneg, hto]⟩

/-- On a positive integer of at most sixteen digits that is a binary64 value,
`toLocaleString` prints the integer with grouping commas. -/
theorem toLocaleString_nat (v j : Nat) (hv : 0 < v) (h16 : v < 10 ^ 16)
    (hx : roundToDouble false v 1 = .fin false (v * 2 ^ j) (-(j : Int))) :
    toLocaleString (.fin false (v * 2 ^ j) (-(j : Int))) = groupThousands (natDigits v) := by
  obtain ⟨w, hw, hf⟩ := fracOf_nat v j
  have hm : v * 2 ^ j ≠ 0 := by
    have := Nat.mul_pos hv (Nat.pow_pos (by decide : 0 < 2) (n := j))
    omega
  have hL1 : 1 ≤ (natDigits v).length := by
    have := natDigits_lt_pow v
    by_contra hc
    have h0 : (natDigits v).length = 0 := by omega
    rw [h0] at this
    omega
  have hL16 : (natDigits v).length < 1 + 16 := by
    have := natDigits_pow_le v hv
    by_contra hc
    have : 10 ^ 16 ≤ 10 ^ ((natDigits v).length - 1) :=
      Nat.pow_le_pow_right (by decide) (by omega)
    omega
  have hdec : decExp (v * w) w = ((natDigits v).length : Int) := by
    have hle : w ≤ v * w := Nat.le_mul_of_pos_left w hv
    unfold decExp
    rw [if_pos hle, Nat.mul_div_cancel v hw]
  have hs := shortestAux_nat (.fin false (v * 2 ^ j) (-(j : Int))) v w hv hw hx
    (fun P hP => roundToDouble_nat_inj P v j hv hP) 16 1 (Nat.le_refl 1) hL1 hL16
  unfold toLocaleString shortest
  simp only [hf, hdec, hs, if_neg hm, Bool.false_eq_true, if_false]

/-- An integer below `2^53`, converted to a Number, is printed back by
`toLocaleString` digit for digit, with grouping commas. -/
theorem roundToDouble_nat_value (v : Nat) (h53 : v < 2 ^ 53) :
    toLocaleString (roundToDouble false v 1) = groupThousands (natDigits v) := by
  by_cases h0 : v = 0
  · subst h0; decide
  · obtain ⟨k, _, hk⟩ := roundToDouble_nat false v (by omega) h53
    have h16 : v < 10 ^ 16 := by
      have : (2 : Nat) ^ 53 < 10 ^ 16 := by norm_num
      omega
    rw [hk]
    exact toLocaleString_nat v k (by omega) h16 hk

/-- Taking digits while they are digits takes a whole digit string. -/
theorem takeWhile_digits (ip : Str) (h : ∀ c ∈ ip, isDecimalDigit c = true) :
    ip.takeWhile isDecimalDigit = ip ∧ ip.dropWhile isDecimalDigit = [] := by
  induction ip with
  | nil => exact ⟨rfl, rfl⟩
  | cons a t ih =>
    have ha := h a (List.mem_cons_self a t)
    have iht := ih (fun c hc => h c (List.mem_cons_of_mem a hc))
    rw [List.takeWhile_cons, List.dropWhile_cons, ha]
    exact ⟨by rw [if_pos rfl, iht.1], by rw [if_pos rfl, iht.2]⟩

/-- On a non-empty string of digits `parseFloat` is the conversion of its
value. -/
theorem parseFloat_digits (ip : Str) (h : ∀ c ∈ ip, isDecimalDigit c = true) (hne : ip ≠ []) :
    parseFloat ip = roundToDouble false (digitsValue ip) 1 := by
  cases ip with
  | nil => exact absurd rfl hne
  | cons a t =>
    have ht := takeWhile_digits (a :: t) h
    have key : parseUnsigned false (a :: t) = roundToDouble false (digitsValue (a :: t)) 1 := by
      have hinf : "Infinity".toList.isPrefixOf (a :: t) = false := by
        rcases digit_cases a (h a (List.mem_cons_self a t)) with
          e | e | e | e | e | e | e | e | e | e <;> subst e <;> rfl
      unfold parseUnsigned
      simp only [hinf, Bool.false_eq_true, if_false, ht.1, ht.2, List.isEmpty_cons,
        parseExponent, fracOfDec, Int.le_refl, if_true, Int.toNat_zero, Nat.pow_zero,
        Nat.mul_one]
    rcases digit_cases a (h a (List.mem_cons_self a t)) with
      e | e | e | e | e | e | e | e | e | e <;> subst e <;> exact key

/-- Removing the commas undoes the grouping of a reversed digit string. -/
theorem filter_groupRev (l : Str) (h : ∀ c ∈ l, c ≠ ',') :
    (groupRev l).filter (fun c => c != ',') = l := by
  induction l using groupRev.induct with
  | case1 a b c d rest ih =>
    have ha : (a != ',') = true := by simpa using h a (by simp)
    have hb : (b != ',') = true := by simpa using h b (by simp)
    have hc : (c != ',') = true := by simpa using h c (by simp)
    have ih2 := ih (fun x hx => h x (by
      simp only [List.mem_cons] at hx ⊢
      tauto))
    rw [groupRev]
    simp only [List.filter_cons, ha, hb, hc, if_true]
    rw [show ((',' : Char) != ',') = false from rfl]
    simp only [Bool.false_eq_true, if_false]
    rw [ih2]
  | case2 l hl =>
    rw [groupRev]
    · exact List.filter_eq_self.mpr (fun c hc => by simpa using h c hc)
    · exact hl

/-- Removing the commas undoes the grouping of a digit string. -/
theorem sinComas_groupThousands (ds : Str) (h : ∀ c ∈ ds, c ≠ ',') :
    (groupThousands ds).filter (fun c => c != ',') = ds := by
  unfold groupThousands
  rw [List.filter_reverse, filter_groupRev _ (fun c hc => h c (List.mem_reverse.mp hc)),
    List.reverse_reverse]

/-- A decimal digit differs from every character that is not one. -/
theorem digit_ne_of_not_digit (c x : Char) (hc : isDecimalDigit c = true)
    (hx : isDecimalDigit x = false) : c ≠ x := by
  rintro rfl
  rw [hc] at hx
  cases hx

/-- Dropping leading zeros in front of an exponent marker: a run of zeros
disappears, anything else leaves a first character that is not the marker. -/
theorem dropWhile_zeros_e (t rest : Str) (ht : ∀ c ∈ t, c ≠ 'e') :
    ((∀ x ∈ t, x = '0') →
        (t ++ 'e' :: rest).dropWhile (fun c => decide (c = '0')) = 'e' :: rest)
    ∧ (¬ (∀ x ∈ t, x = '0') →
        ∃ x r, (t ++ 'e' :: rest).dropWhile (fun c => decide (c = '0')) = x :: r ∧ x ≠ 'e') := by
  induction t with
  | nil =>
    refine ⟨fun _ => rfl, fun h => absurd (fun x hx => by cases hx) h⟩
  | cons a u ih =>
    have ihu := ih (fun c hc => ht c (List.mem_cons_of_mem a hc))
    by_cases ha : a = '0'
    · subst ha
      have hstep : (('0' :: u) ++ 'e' :: rest).dropWhile (fun c => decide (c = '0'))
          = (u ++ 'e' :: rest).dropWhile (fun c => decide (c = '0')) := by
        rw [List.cons_append, List.dropWhile_cons]
        simp
      rw [hstep]
      refine ⟨fun h => ihu.1 (fun x hx => h x (List.mem_cons_of_mem _ hx)), fun h => ihu.2 ?_⟩
      intro hall
      apply h
      intro x hx
      rcases List.mem_cons.mp hx with hx | hx
      · exact hx
      · exact hall x hx
    · have hstep : ((a :: u) ++ 'e' :: rest).dropWhile (fun c => decide (c = '0'))
          = a :: (u ++ 'e' :: rest) := by
        rw [List.cons_append, List.dropWhile_cons]
        simp [ha]
      rw [hstep]
      refine ⟨fun h => absurd (h a (List.mem_cons_self a u)) ha, fun _ => ?_⟩
      exact ⟨a, _, rfl, ht a (List.mem_cons_self a u)⟩

/-- The pattern `0+e` in front of a string `t` followed by the marker: it
matches exactly when `t` is a non-empty run of zeros. -/
theorem zerosThenE_append (t rest : Str) (ht : ∀ c ∈ t, c ≠ 'e') :
    ((t ≠ [] ∧ ∀ x ∈ t, x = '0') → zerosThenE (t ++ 'e' :: rest) = some rest)
    ∧ (¬ (t ≠ [] ∧ ∀ x ∈ t, x = '0') → zerosThenE (t ++ 'e' :: rest) = none) := by
  cases t with
  | nil =>
    refine ⟨fun h => absurd rfl h.1, fun _ => rfl⟩
  | cons a u =>
    have hu := dropWhile_zeros_e u rest (fun c hc => ht c (List.mem_cons_of_mem a hc))
    by_cases ha : a = '0'
    · subst ha
      by_cases hall : ∀ x ∈ u, x = '0'
      · refine ⟨fun _ => ?_, fun h => absurd ⟨by simp, ?_⟩ h⟩
        · simp only [List.cons_append, zerosThenE, hu.1 hall]
        · intro x hx
          rcases List.mem_cons.mp hx with hx | hx
          · exact hx
          · exact hall x hx
      · refine ⟨fun h => absurd (fun x hx => h.2 x (List.mem_cons_of_mem _ hx)) hall,
          fun _ => ?_⟩
        obtain ⟨x, r, hxr, hxe⟩ := hu.2 hall
        simp only [List.cons_append, zerosThenE, hxr]
        split
        · rename_i heq
          exact absurd (List.cons.inj heq).1 hxe
        · rfl
    · refine ⟨fun h => absurd (h.2 a (List.mem_cons_self a u)) ha, fun _ => ?_⟩
      rw [List.cons_append]
      unfold zerosThenE
      split
      · rename_i heq
        exact absurd (List.cons.inj heq).1 ha
      · rfl

/-- Without an exponent marker nothing is stripped. -/
theorem stripZerosE_no_e (s : Str) (h : ∀ c ∈ s, c ≠ 'e') : stripZerosE s = s := by
  induction s with
  | nil => rfl
  | cons a u ih =>
    have ihu := ih (fun c hc => h c (List.mem_cons_of_mem a hc))
    have hnone : matchZerosE (a :: u) = none := by
      have hz : ∀ v : Str, (∀ c ∈ v, c ≠ 'e') → zerosThenE v = none := by
        intro v hv
        unfold zerosThenE
        split
        · rename_i t
          split
          · rename_i r heq
            have hmem : 'e' ∈ t := by
              have : 'e' ∈ List.dropWhile (fun c => decide (c = '0')) t := by
                rw [heq]; exact List.mem_cons_self _ _
              exact (List.dropWhile_sublist _).subset this
            exact absurd rfl (hv 'e' (List.mem_cons_of_mem _ hmem))
          · rfl
        · rfl
      unfold matchZerosE
      split
      · rename_i t heq
        exact hz t (fun c hc => h c (by rw [heq]; exact List.mem_cons_of_mem _ hc))
      · exact hz _ h
    rw [stripZerosE, hnone, ihu]

/-- In front of a character other than the point the pattern `\.?0+e` is the
pattern `0+e`. -/
theorem matchZerosE_cons (a : Char) (v : Str) (ha : a ≠ '.') :
    matchZerosE (a :: v) = zerosThenE (a :: v) := by
  unfold matchZerosE
  split
  · rename_i t heq
    exact absurd (List.cons.inj heq).1 ha
  · rfl

/-- Stripping at a position where the pattern does not match moves on by one
character. -/
theorem stripZerosE_cons_none (a : Char) (v : Str) (h : matchZerosE (a :: v) = none) :
    stripZerosE (a :: v) = a :: stripZerosE v := by
  rw [stripZerosE, h]

/-- Stripping at a position where the pattern matches replaces the match by the
marker. -/
theorem stripZerosE_cons_some (a : Char) (v r : Str) (h : matchZerosE (a :: v) = some r) :
    stripZerosE (a :: v) = 'e' :: r := by
  rw [stripZerosE, h]

/-- Fraction digits in front of the exponent marker lose exactly their trailing
zeros: what is kept is empty or ends in a non-zero digit. -/
theorem stripZerosE_fraction (rest : Str) (hrest : ∀ c ∈ rest, c ≠ 'e') (fr : Str)
    (hfr : ∀ c ∈ fr, isDecimalDigit c = true) :
    ∃ keep zs, fr = keep ++ zs ∧ (∀ c ∈ zs, c = '0')
      ∧ (keep = [] ∨ ∃ l x, keep = l ++ [x] ∧ isDecimalDigit x = true ∧ x ≠ '0')
      ∧ stripZerosE (fr ++ 'e' :: rest) = keep ++ 'e' :: rest := by
  induction fr with
  | nil =>
    refine ⟨[], [], rfl, by simp, Or.inl rfl, ?_⟩
    have hn : matchZerosE ('e' :: rest) = none := rfl
    rw [List.nil_append, stripZerosE_cons_none _ _ hn, stripZerosE_no_e rest hrest]
  | cons a u ih =>
    have hda := hfr a (List.mem_cons_self a u)
    have hap : a ≠ '.' := digit_ne_of_not_digit a '.' hda (by decide)
    have hne : ∀ c ∈ a :: u, c ≠ 'e' :=
      fun c hc => digit_ne_of_not_digit c 'e' (hfr c hc) (by decide)
    obtain ⟨keep, zs, hu, hzs, hkeep, hstrip⟩ :=
      ih (fun c hc => hfr c (List.mem_cons_of_mem a hc))
    have hz := zerosThenE_append (a :: u) rest hne
    by_cases hall : ∀ x ∈ a :: u, x = '0'
    · refine ⟨[], a :: u, rfl, hall, Or.inl rfl, ?_⟩
      have hm : matchZerosE (a :: (u ++ 'e' :: rest)) = some rest := by
        rw [matchZerosE_cons a _ hap]
        exact hz.1 ⟨by simp, hall⟩
      rw [List.cons_append, stripZerosE_cons_some _ _ _ hm]
      rfl
    · have hm : matchZerosE (a :: (u ++ 'e' :: rest)) = none := by
        rw [matchZerosE_cons a _ hap]
        exact hz.2 (fun h => hall h.2)
      refine ⟨a :: keep, zs, by rw [hu]; rfl, hzs, Or.inr ?_, ?_⟩
      · rcases hkeep with hk | ⟨l, x, hl, hx, hx0⟩
        · subst hk
          refine ⟨[], a, rfl, hda, ?_⟩
          intro ha0
          apply hall
          intro y hy
          rcases List.mem_cons.mp hy with hy | hy
          · rw [hy]; exact ha0
          · rw [hu] at hy
            exact hzs y (by simpa using hy)
        · exact ⟨a :: l, x, by rw [hl]; rfl, hx, hx0⟩
      · rw [List.cons_append, stripZerosE_cons_none _ _ hm, hstrip]
        rfl

/-- The mantissa `d.ffffff` of an exponential string, with or without a minus
sign: stripping removes a run of trailing fraction zeros, together with the
point when nothing else follows it, and what is kept ends in a non-zero
digit. -/
theorem stripZerosE_mantissa (sgn : Str) (hs : sgn = [] ∨ sgn = ['-']) (d : Char)
    (hd : isDecimalDigit d = true) (hd0 : d ≠ '0') (fr rest : Str)
    (hfr : ∀ c ∈ fr, isDecimalDigit c = true) (hfrne : fr ≠ [])
    (hrest : ∀ c ∈ rest, c ≠ 'e') :
    ∃ l x z, sgn ++ d :: '.' :: fr = (l ++ [x]) ++ z
      ∧ (∀ c ∈ z, c = '0' ∨ c = '.')
      ∧ isDecimalDigit x = true ∧ x ≠ '0'
      ∧ (∀ c ∈ l, c ≠ 'e')
      ∧ stripZerosE (sgn ++ d :: '.' :: (fr ++ 'e' :: rest)) = (l ++ [x]) ++ 'e' :: rest := by
  have hdp : d ≠ '.' := digit_ne_of_not_digit d '.' hd (by decide)
  have hde : d ≠ 'e' := digit_ne_of_not_digit d 'e' hd (by decide)
  have hfre : ∀ c ∈ fr, c ≠ 'e' := fun c hc => digit_ne_of_not_digit c 'e' (hfr c hc) (by decide)
  -- the digit in front of the point never starts a match
  have hdn : ∀ v : Str, matchZerosE (d :: v) = none := by
    intro v
    rw [matchZerosE_cons d v hdp]
    unfold zerosThenE
    split
    · rename_i heq
      exact absurd (List.cons.inj heq).1 hd0
    · rfl
  -- the sign never starts a match
  have hsgn : ∀ v : Str, stripZerosE (sgn ++ v) = sgn ++ stripZerosE v := by
    intro v
    rcases hs with h | h
    · rw [h]; rfl
    · rw [h]
      have hn : matchZerosE ('-' :: v) = none := rfl
      exact stripZerosE_cons_none _ _ hn
  have hsl : ∀ c ∈ sgn, c ≠ 'e' := by
    intro c hc
    rcases hs with h | h
    · rw [h] at hc; cases hc
    · rw [h] at hc
      rw [List.mem_singleton.mp hc]
      decide
  rw [hsgn, stripZerosE_cons_none _ _ (hdn _)]
  have hz := zerosThenE_append fr rest hfre
  by_cases hall : ∀ x ∈ fr, x = '0'
  · -- the fraction is all zeros: the point goes as well
    have hm : matchZerosE ('.' :: (fr ++ 'e' :: rest)) = some rest := hz.1 ⟨hfrne, hall⟩
    refine ⟨sgn, d, '.' :: fr, by simp, ?_, hd, hd0, hsl, ?_⟩
    · intro c hc
      rcases List.mem_cons.mp hc with hc | hc
      · exact Or.inr hc
      · exact Or.inl (hall c hc)
    · rw [stripZerosE_cons_some _ _ _ hm]
      simp
  · have hm : matchZerosE ('.' :: (fr ++ 'e' :: rest)) = none := hz.2 (fun h => hall h.2)
    obtain ⟨keep, zs, hfrk, hzs, hkeep, hstrip⟩ := stripZerosE_fraction rest hrest fr hfr
    rcases hkeep with hk | ⟨l, x, hl, hx, hx0⟩
    · subst hk
      exact absurd (fun y hy => hzs y (by rw [hfrk] at hy; simpa using hy)) hall
    · refine ⟨sgn ++ d :: '.' :: l, x, zs, ?_, fun c hc => Or.inl (hzs c hc), hx, hx0, ?_, ?_⟩
      · rw [hfrk, hl]; simp
      · intro c hc
        rcases List.mem_append.mp hc with hc | hc
        · exact hsl c hc
        · rcases List.mem_cons.mp hc with hc | hc
          · rw [hc]; exact hde
          · rcases List.mem_cons.mp hc with hc | hc
            · rw [hc]; decide
            · exact hfre c (by rw [hfrk, hl]; simp [hc])
      · rw [stripZerosE_cons_none _ _ hm, hstrip, hl]
        simp

/-- The plus sign after the first exponent marker is dropped. -/
theorem dropPlusE_append (mant ex : Str) (h : ∀ c ∈ mant, c ≠ 'e') :
    dropPlusE (mant ++ 'e' :: '+' :: ex) = mant ++ 'e' :: ex := by
  induction mant with
  | nil => rfl
  | cons a u ih =>
    have ha : a ≠ 'e' := h a (List.mem_cons_self a u)
    have ihu := ih (fun c hc => h c (List.mem_cons_of_mem a hc))
    rw [List.cons_append, dropPlusE]
    · rw [ihu]; rfl
    · intro r heq _
      exact ha heq
    · intro heq
      exact ha heq

/-- Rounding half up never goes below a lower bound of the quotient. -/
theorem le_divRoundHalfUp (k a b : Nat) (hb : 0 < b) (h : k * b ≤ a) :
    k ≤ divRoundHalfUp a b := by
  have h1 : k ≤ a / b := (Nat.le_div_iff_mul_le hb).mpr h
  unfold divRoundHalfUp
  split <;> omega

/-- The denominator of the exact fraction of a finite Number is positive. -/
theorem fracOf_pos (m : Nat) (e : Int) : 0 < (fracOf m e).2 := by
  unfold fracOf
  split
  · exact Nat.one_pos
  · exact Nat.pow_pos (by decide)

/-- The seven digits and the exponent that `toExponential(6)` computes for a
fraction `p / q ≥ 1`: the digits form a number of at least seven places and
the exponent is not negative. -/
theorem exponential_digits (p q : Nat) (hq0 : 0 < q) (hq : q ≤ p) :
    10 ^ 6 ≤ (carry 7 (decExp p q - 1)
        (divRoundHalfUp (scaleDec p q (6 - (decExp p q - 1))).1
          (scaleDec p q (6 - (decExp p q - 1))).2)).1
    ∧ 0 ≤ (carry 7 (decExp p q - 1)
        (divRoundHalfUp (scaleDec p q (6 - (decExp p q - 1))).1
          (scaleDec p q (6 - (decExp p q - 1))).2)).2 := by
  have hdec : decExp p q = ((natDigits (p / q)).length : Int) := by
    unfold decExp
    rw [if_pos hq]
  have hpq : 0 < p / q := Nat.div_pos hq hq0
  have hL1 : 1 ≤ (natDigits (p / q)).length := List.length_pos.mpr (natDigits_digits _).1
  have hlow : 10 ^ ((natDigits (p / q)).length - 1) * q ≤ p :=
    (Nat.le_div_iff_mul_le hq0).mp (natDigits_pow_le _ hpq)
  rw [hdec]
  generalize (natDigits (p / q)).length = L at hL1 hlow
  have hN : 10 ^ 6 ≤ divRoundHalfUp (scaleDec p q (6 - ((L : Int) - 1))).1
      (scaleDec p q (6 - ((L : Int) - 1))).2 := by
    by_cases h7 : L ≤ 7
    · have hnn : (0 : Int) ≤ 6 - ((L : Int) - 1) := by omega
      have hto : (6 - ((L : Int) - 1)).toNat = 7 - L := by omega
      simp only [scaleDec, if_pos hnn, hto]
      apply le_divRoundHalfUp _ _ _ hq0
      have hsplit : (10 : Nat) ^ 6 = 10 ^ (L - 1) * 10 ^ (7 - L) := by
        rw [← Nat.pow_add]; congr 1; omega
      calc 10 ^ 6 * q = (10 ^ (L - 1) * q) * 10 ^ (7 - L) := by rw [hsplit]; ring
        _ ≤ p * 10 ^ (7 - L) := Nat.mul_le_mul_right _ hlow
    · have hneg : ¬ ((0 : Int) ≤ 6 - ((L : Int) - 1)) := by omega
      have hto : (-(6 - ((L : Int) - 1))).toNat = L - 7 := by omega
      have hqpos : 0 < q * 10 ^ (L - 7) := Nat.mul_pos hq0 (Nat.pow_pos (by decide))
      simp only [scaleDec, if_neg hneg, hto]
      apply le_divRoundHalfUp _ _ _ hqpos
      have hsplit : (10 : Nat) ^ (L - 1) = 10 ^ 6 * 10 ^ (L - 7) := by
        rw [← Nat.pow_add]; congr 1; omega
      calc 10 ^ 6 * (q * 10 ^ (L - 7)) = 10 ^ (L - 1) * q := by rw [hsplit]; ring
        _ ≤ p := hlow
  generalize divRoundHalfUp (scaleDec p q (6 - ((L : Int) - 1))).1
      (scaleDec p q (6 - ((L : Int) - 1))).2 = N at hN
  unfold carry
  split
  · exact ⟨by norm_num, by show (0 : Int) ≤ (L : Int) - 1 + 1; omega⟩
  · exact ⟨hN, by show (0 : Int) ≤ (L : Int) - 1; omega⟩

/-- A finite Number of magnitude at least `1e9` has an exact fraction `p / q`
with `q ≤ p`. -/
theorem fraction_ge_one_of_ge_1e9 (s : Bool) (m : Nat) (e : Int)
    (h : ge (abs (.fin s m e)) (ofDecimal 1 9) = true) :
    (fracOf m e).2 ≤ (fracOf m e).1 := by
  have h9 : ofDecimal 1 9 = .fin false 8388608000000000 (-23) := by decide
  rw [h9] at h
  have hlt : ¬ (signed false (m * 2 ^ (e - min e (-23)).toNat)
      < signed false (8388608000000000 * 2 ^ ((-23 : Int) - min e (-23)).toNat)) := by
    simpa [ge, abs, lt] using h
  simp only [signed, Bool.false_eq_true, if_false] at hlt
  have hle : 8388608000000000 * 2 ^ ((-23 : Int) - min e (-23)).toNat
      ≤ m * 2 ^ (e - min e (-23)).toNat := by
    have := Int.not_lt.mp hlt
    exact_mod_cast this
  have hM : (8388608000000000 : Nat) = 10 ^ 9 * 2 ^ 23 := by norm_num
  unfold fracOf
  by_cases he0 : 0 ≤ e
  · rw [if_pos he0]
    have hmin : min e (-23) = -23 := by omega
    rw [hmin] at hle
    have h1 : ((-23 : Int) - -23).toNat = 0 := by omega
    have h2 : (e - -23).toNat = e.toNat + 23 := by omega
    rw [h1, h2, Nat.pow_zero, Nat.mul_one, Nat.pow_add] at hle
    show 1 ≤ m * 2 ^ e.toNat
    by_contra hc
    have hz : m * 2 ^ e.toNat = 0 := by omega
    rw [← Nat.mul_assoc, hz] at hle
    omega
  · rw [if_neg he0]
    show 2 ^ (-e).toNat ≤ m
    by_cases he23 : -23 ≤ e
    · have hmin : min e (-23) = -23 := by omega
      rw [hmin] at hle
      have h1 : ((-23 : Int) - -23).toNat = 0 := by omega
      rw [h1, Nat.pow_zero, Nat.mul_one] at hle
      generalize hj : (e - -23).toNat = j at hle
      have hk : (-e).toNat = 23 - j := by omega
      have hj23 : j ≤ 23 := by omega
      rw [hk]
      have hsplit : (8388608000000000 : Nat) = (10 ^ 9 * 2 ^ (23 - j)) * 2 ^ j := by
        rw [hM, Nat.mul_assoc, ← Nat.pow_add]; congr 2; omega
      rw [hsplit] at hle
      have hpos : 0 < 2 ^ j := Nat.pow_pos (by decide)
      have h3 : 10 ^ 9 * 2 ^ (23 - j) ≤ m := Nat.le_of_mul_le_mul_right hle hpos
      have h4 : 2 ^ (23 - j) ≤ 10 ^ 9 * 2 ^ (23 - j) :=
        Nat.le_mul_of_pos_left _ (by norm_num)
      omega
    · have hmin : min e (-23) = e := by omega
      rw [hmin] at hle
      have h1 : (e - e).toNat = 0 := by omega
      rw [h1, Nat.pow_zero, Nat.mul_one] at hle
      generalize hj : ((-23 : Int) - e).toNat = j at hle
      have hk : (-e).toNat = 23 + j := by omega
      rw [hk, Nat.pow_add]
      have h5 : 2 ^ 23 * 2 ^ j ≤ 8388608000000000 * 2 ^ j :=
        Nat.mul_le_mul_right _ (by norm_num)
      omega

/-- Shape of `toExponential(6)` on a finite Number of magnitude at least one:
an optional minus sign, a non-zero digit, the point, fraction digits, the
marker `e`, a plus sign and the exponent digits. -/
theorem toExponential_shape (s : Bool) (m : Nat) (e : Int)
    (hq : (fracOf m e).2 ≤ (fracOf m e).1) :
    ∃ d fr ex, isDecimalDigit d = true ∧ d ≠ '0'
      ∧ (∀ c ∈ fr, isDecimalDigit c = true) ∧ fr ≠ []
      ∧ (∀ c ∈ ex, isDecimalDigit c = true) ∧ ex ≠ []
      ∧ toExponential 6 (.fin s m e)
          = (if s = true then ['-'] else []) ++ d :: '.' :: (fr ++ 'e' :: '+' :: ex) := by
  have hq0 := fracOf_pos m e
  have hm : m ≠ 0 := by
    intro h0
    rw [h0] at hq
    have hz : (fracOf 0 e).1 = 0 := by
      unfold fracOf
      split <;> simp
    have hp := fracOf_pos 0 e
    omega
  obtain ⟨h6, hex⟩ := exponential_digits _ _ hq0 hq
  unfold toExponential
  simp only [if_neg hm, Nat.reduceAdd]
  generalize (carry 7 (decExp (fracOf m e).1 (fracOf m e).2 - 1)
      (divRoundHalfUp (scaleDec (fracOf m e).1 (fracOf m e).2
          (6 - (decExp (fracOf m e).1 (fracOf m e).2 - 1))).1
        (scaleDec (fracOf m e).1 (fracOf m e).2
          (6 - (decExp (fracOf m e).1 (fracOf m e).2 - 1))).2)) = r at h6 hex
  have hlen : 7 ≤ (natDigits r.1).length := natDigits_length_ge 6 r.1 h6
  obtain ⟨d, t, hdt, hd0⟩ := natDigits_head r.1 (by
    have : 0 < 10 ^ 6 := by norm_num
    omega)
  have hdig := (natDigits_digits r.1).2
  have htne : t ≠ [] := by
    intro ht
    rw [hdt, ht] at hlen
    simp at hlen
  refine ⟨d, t, natDigits r.2.natAbs, ?_, hd0, ?_, htne, (natDigits_digits _).2,
    (natDigits_digits _).1, ?_⟩
  · exact hdig d (by rw [hdt]; exact List.mem_cons_self d t)
  · intro c hc
    exact hdig c (by rw [hdt]; exact List.mem_cons_of_mem d hc)
  · have hsg : (s && decide (m ≠ 0)) = s := by simp [hm]
    have ht6 : 6 - t.length = 0 := by
      rw [hdt, List.length_cons] at hlen
      omega
    simp only [hsg, hdt, List.length_cons, Nat.reduceSubDiff, ht6, List.replicate_zero,
      List.nil_append, List.take_succ_cons, List.take_zero, List.drop_succ_cons, List.drop_zero,
      if_pos hex]
    cases s <;> simp

/-- A string of decimal digits contains no point. -/
theorem count_point_digits (l : Str) (h : ∀ c ∈ l, isDecimalDigit c = true) :
    l.count '.' = 0 :=
  List.count_eq_zero.mpr (fun hm => absurd (h '.' hm) (by decide))

/-- The digits of a number contain no point. -/
theorem count_point_natDigits (n : Nat) : (natDigits n).count '.' = 0 :=
  count_point_digits _ (natDigits_digits n).2

/-- A run of zeros contains no point. -/
theorem count_point_zeros (n : Nat) : (List.replicate n '0').count '.' = 0 :=
  List.count_eq_zero.mpr (fun hm => absurd (List.eq_of_mem_replicate hm) (by decide))

/-- Cutting a string in two keeps the number of points. -/
theorem count_take_drop (l : Str) (n : Nat) :
    (l.take n).count '.' + (l.drop n).count '.' = l.count '.' := by
  rw [← List.count_append, List.take_append_drop]

/-- The parts of a cut string without a point have no point. -/
theorem count_take_drop_zero (l : Str) (h : l.count '.' = 0) (n : Nat) :
    (l.take n).count '.' = 0 ∧ (l.drop n).count '.' = 0 := by
  have := count_take_drop l n
  omega

/-- A character other than the point in front does not change the number of
points. -/
theorem count_point_cons (a : Char) (ha : a ≠ '.') (l : Str) :
    (a :: l).count '.' = l.count '.' := by
  rw [List.count_cons]
  have : (a == '.') = false := by simpa using ha
  rw [this]
  rfl

/-- The point in front adds one point. -/
theorem count_point_cons_self (l : Str) : ('.' :: l).count '.' = l.count '.' + 1 := by
  rw [List.count_cons]
  rfl

/-- The layout of `Number::toString` has at most one point. -/
theorem count_point_layout (s : Nat) (n : Int) : (layout s n).count '.' ≤ 1 := by
  have hd := count_point_natDigits s
  unfold layout
  simp only []
  split
  · rw [List.count_append, hd, count_point_zeros]
    decide
  · split
    · obtain ⟨h1, h2⟩ := count_take_drop_zero _ hd n.toNat
      rw [List.count_append, count_point_cons_self, h1, h2]
    · split
      · rw [count_point_cons '0' (by decide), count_point_cons_self, List.count_append,
          count_point_zeros, hd]
      · have hsg : ((if 0 ≤ n - 1 then '+' else '-') : Char) ≠ '.' := by
          split <;> decide
        have htail : ('e' :: (if 0 ≤ n - 1 then '+' else '-')
            :: natDigits (n - 1).natAbs).count '.' = 0 := by
          rw [count_point_cons 'e' (by decide), count_point_cons _ hsg, count_point_natDigits]
        split
        · rw [List.count_append, hd, htail]
          decide
        · obtain ⟨h1, h2⟩ := count_take_drop_zero _ hd 1
          rw [List.count_append, count_point_cons_self, List.count_append, h1, h2, htail]

/-- The string of a Number has at most one point. -/
theorem count_point_toString (x : Number) : (JS.toString x).count '.' ≤ 1 := by
  cases x with
  | nan => decide
  | inf s => cases s <;> decide
  | fin s m e =>
    unfold JS.toString
    simp only []
    split
    · decide
    · split
      · rw [List.count_cons]
        have := count_point_layout (shortest m e).1 (shortest m e).2
        simpa using this
      · exact count_point_layout _ _

/-- The string of `toFixed` has at most one point. -/
theorem count_point_toFixed (f : Nat) (x : Number) : (toFixed f x).count '.' ≤ 1 := by
  cases x with
  | nan => exact (by decide : List.count '.' "NaN".toList ≤ 1)
  | inf s =>
    cases s
    · exact (by decide : List.count '.' "Infinity".toList ≤ 1)
    · exact (by decide : List.count '.' "-Infinity".toList ≤ 1)
  | fin s m e =>
    have hsg : ((if (s && decide (m ≠ 0)) = true then ['-'] else []) : Str).count '.' = 0 := by
      split <;> decide
    unfold toFixed
    simp only []
    split
    · exact count_point_toString _
    · split
      · rw [List.count_append, hsg, count_point_natDigits]
        decide
      · have hds : (List.replicate
            (f + 1 - (natDigits (divRoundHalfUp ((fracOf m e).1 * 10 ^ f) (fracOf m e).2)).length)
            '0' ++ natDigits (divRoundHalfUp ((fracOf m e).1 * 10 ^ f) (fracOf m e).2)).count '.'
            = 0 := by
          rw [List.count_append, count_point_zeros, count_point_natDigits]
        generalize (List.replicate
            (f + 1 - (natDigits (divRoundHalfUp ((fracOf m e).1 * 10 ^ f) (fracOf m e).2)).length)
            '0' ++ natDigits (divRoundHalfUp ((fracOf m e).1 * 10 ^ f) (fracOf m e).2)) = ds
          at hds
        obtain ⟨h1, h2⟩ := count_take_drop_zero ds hds (ds.length - f)
        rw [List.count_append, hsg, List.count_append, count_point_cons_self, h1, h2]

/-- The string of `toExponential` has at most one point. -/
theorem count_point_toExponential (f : Nat) (x : Number) :
    (toExponential f x).count '.' ≤ 1 := by
  cases x with
  | nan => exact (by decide : List.count '.' "NaN".toList ≤ 1)
  | inf s =>
    cases s
    · exact (by decide : List.count '.' "Infinity".toList ≤ 1)
    · exact (by decide : List.count '.' "-Infinity".toList ≤ 1)
  | fin s m e =>
    have hsg : ((if (s && decide (m ≠ 0)) = true then ['-'] else []) : Str).count '.' = 0 := by
      split <;> decide
    unfold toExponential
    simp only []
    generalize (if m = 0 then ((0 : Nat), (0 : Int))
      else carry (f + 1) (if m = 0 then 0 else decExp (fracOf m e).1 (fracOf m e).2 - 1)
        (divRoundHalfUp
          (scaleDec (fracOf m e).1 (fracOf m e).2
            ((f : Int) - if m = 0 then 0 else decExp (fracOf m e).1 (fracOf m e).2 - 1)).1
          (scaleDec (fracOf m e).1 (fracOf m e).2
            ((f : Int) - if m = 0 then 0 else decExp (fracOf m e).1 (fracOf m e).2 - 1)).2)) = r
    have hds : (List.replicate (f + 1 - (natDigits r.1).length) '0' ++ natDigits r.1).count '.'
        = 0 := by
      rw [List.count_append, count_point_zeros, count_point_natDigits]
    generalize (List.replicate (f + 1 - (natDigits r.1).length) '0' ++ natDigits r.1) = ds
      at hds
    have hes : ((if 0 ≤ r.2 then '+' else '-') : Char) ≠ '.' := by
      split <;> decide
    have htail : ('e' :: (if 0 ≤ r.2 then '+' else '-') :: natDigits r.2.natAbs).count '.'
        = 0 := by
      rw [count_point_cons 'e' (by decide), count_point_cons _ hes, count_point_natDigits]
    rw [List.count_append, hsg, List.count_append, htail]
    split
    · rw [hds]; decide
    · obtain ⟨h1, h2⟩ := count_take_drop_zero ds hds 1
      rw [List.count_append, count_point_cons_self, h1, h2]

/-- What `replace(/\.?0+$/, "")` returns is a sublist of its argument. -/
theorem stripZerosEnd_sublist (s : Str) : (stripZerosEnd s).Sublist s := by
  induction s with
  | nil => exact List.Sublist.refl _
  | cons a u ih =>
    rw [stripZerosEnd]
    split
    · exact List.nil_sublist _
    · exact ih.cons₂ a

/-- A match of `0+e` leaves the marker and what follows it as a sublist. -/
theorem zerosThenE_sublist (s r : Str) (h : zerosThenE s = some r) :
    ('e' :: r).Sublist s := by
  unfold zerosThenE at h
  split at h
  · rename_i t
    split at h
    · rename_i r2 heq
      have hr : r2 = r := Option.some.inj h
      rw [← hr, ← heq]
      exact ((List.dropWhile_sublist _).cons _)
    · cases h
  · cases h

/-- A match of `\.?0+e` leaves the marker and what follows it as a sublist. -/
theorem matchZerosE_sublist (s r : Str) (h : matchZerosE s = some r) :
    ('e' :: r).Sublist s := by
  unfold matchZerosE at h
  split at h
  · exact (zerosThenE_sublist _ _ h).cons _
  · exact zerosThenE_sublist _ _ h

/-- What `replace(/\.?0+e/, "e")` returns is a sublist of its argument. -/
theorem stripZerosE_sublist (s : Str) : (stripZerosE s).Sublist s := by
  induction s with
  | nil => exact List.Sublist.refl _
  | cons a u ih =>
    rw [stripZerosE]
    split
    · rename_i r heq
      exact matchZerosE_sublist _ _ heq
    · exact ih.cons₂ a

/-- What `replace(/e\+?/, "e")` returns is a sublist of its argument. -/
theorem dropPlusE_sublist (s : Str) : (dropPlusE s).Sublist s := by
  induction s using dropPlusE.induct with
  | case1 => exact List.Sublist.refl _
  | case2 r =>
    rw [dropPlusE]
    exact ((List.Sublist.refl r).cons _).cons₂ _
  | case3 r h =>
    rw [dropPlusE]
    exact h
  | case4 c cs h1 h2 ih =>
    rw [dropPlusE]
    · exact ih.cons₂ c
    · exact h1
    · exact h2

end JS

namespace Calculadora

/-! ### Auxiliary lemmas -/

/-- The closing statement of the entry methods keeps `valorActual`. -/
theorem actualizarOperacionCompleta_valorActual (c : Calculadora) :
    (actualizarOperacionCompleta c).valorActual = c.valorActual := by
  unfold actualizarOperacionCompleta; split <;> rfl

/-- The closing statement of the entry methods keeps `valorPrevio`. -/
theorem actualizarOperacionCompleta_valorPrevio (c : Calculadora) :
    (actualizarOperacionCompleta c).valorPrevio = c.valorPrevio := by
  unfold actualizarOperacionCompleta; split <;> rfl

/-- The closing statement of the entry methods keeps `operacion`. -/
theorem actualizarOperacionCompleta_operacion (c : Calculadora) :
    (actualizarOperacionCompleta c).operacion = c.operacion := by
  unfold actualizarOperacionCompleta; split <;> rfl

/-- The closing statement of the entry methods keeps `operacionRealizada`. -/
theorem actualizarOperacionCompleta_operacionRealizada (c : Calculadora) :
    (actualizarOperacionCompleta c).operacionRealizada = c.operacionRealizada := by
  unfold actualizarOperacionCompleta; split <;> rfl

/-- With no operation pending the closing statement changes nothing. -/
theorem actualizarOperacionCompleta_none (c : Calculadora) (h : c.operacion = none) :
    actualizarOperacionCompleta c = c := by
  simp [actualizarOperacionCompleta, h, truthy]

/-- The entry `cambiarSigno` stores, as a function of the entry it finds. -/
theorem cambiarSigno_valorActual (c : Calculadora) :
    (cambiarSigno c).valorActual =
      if c.valorActual = "0".toList then c.valorActual
      else if startsWith c.valorActual '-' then c.valorActual.drop 1
      else '-' :: c.valorActual := by
  unfold cambiarSigno
  split
  · rfl
  · rw [actualizarOperacionCompleta_valorActual]

/-- A decimal digit is not the point. -/
theorem digit_ne_point (d : Char) (hd : isDecimalDigit d = true) : d ≠ '.' := by
  rintro rfl
  exact absurd hd (by decide)

/-- A string of digits does not include the point. -/
theorem includes_digits (ip : Str) (h : ∀ c ∈ ip, isDecimalDigit c = true) :
    includes ip '.' = false := by
  induction ip with
  | nil => rfl
  | cons a t ih =>
    have ha : a ≠ '.' := digit_ne_point a (h a (List.mem_cons_self a t))
    have := ih (fun c hc => h c (List.mem_cons_of_mem a hc))
    simp only [includes, List.any_cons] at this ⊢
    simp [ha, this]

/-- A string with a point in it includes the point. -/
theorem includes_append_point (ip fp : Str) : includes (ip ++ '.' :: fp) '.' = true := by
  simp [includes]

/-- Splitting a string of digits at the point gives the string itself. -/
theorem split_digits (ip : Str) (h : ∀ c ∈ ip, isDecimalDigit c = true) :
    split '.' ip = [ip] := by
  induction ip with
  | nil => rfl
  | cons a t ih =>
    have ha : a ≠ '.' := digit_ne_point a (h a (List.mem_cons_self a t))
    have := ih (fun c hc => h c (List.mem_cons_of_mem a hc))
    simp [split, ha, this]

/-- Splitting at the point cuts after a leading run of digits. -/
theorem split_append_point (ip fp : Str) (h : ∀ c ∈ ip, isDecimalDigit c = true) :
    split '.' (ip ++ '.' :: fp) = ip :: split '.' fp := by
  induction ip with
  | nil => simp [split]
  | cons a t ih =>
    have ha : a ≠ '.' := digit_ne_point a (h a (List.mem_cons_self a t))
    have := ih (fun c hc => h c (List.mem_cons_of_mem a hc))
    simp [split, ha, this]

/-- Keeping the digits of a string of digits changes nothing. -/
theorem keepDigits_digits (ip : Str) (h : ∀ c ∈ ip, isDecimalDigit c = true) :
    keepDigits ip = ip := by
  simpa [keepDigits, List.filter_eq_self] using h

/-- A string of digits is its own integer portion, with no fractional portion. -/
theorem porcionEntera_digits (ip : Str) (h : ∀ c ∈ ip, isDecimalDigit c = true) :
    porcionEntera ip = ip ∧ porcionDecimal ip = [] := by
  induction ip with
  | nil => exact ⟨rfl, rfl⟩
  | cons a t ih =>
    have ha : (a != '.') = true := by
      simpa using digit_ne_point a (h a (List.mem_cons_self a t))
    have ih2 := ih (fun c hc => h c (List.mem_cons_of_mem a hc))
    unfold porcionEntera porcionDecimal at ih2 ⊢
    rw [List.takeWhile_cons, List.dropWhile_cons, ha]
    exact ⟨by rw [if_pos rfl, ih2.1], by rw [if_pos rfl, ih2.2]⟩

/-- The two portions of digits, a point and a rest. -/
theorem porcionEntera_append_point (ip fp : Str) (h : ∀ c ∈ ip, isDecimalDigit c = true) :
    porcionEntera (ip ++ '.' :: fp) = ip ∧ porcionDecimal (ip ++ '.' :: fp) = fp := by
  induction ip with
  | nil => exact ⟨rfl, rfl⟩
  | cons a t ih =>
    have ha : (a != '.') = true := by
      simpa using digit_ne_point a (h a (List.mem_cons_self a t))
    have ih2 := ih (fun c hc => h c (List.mem_cons_of_mem a hc))
    unfold porcionEntera porcionDecimal at ih2 ⊢
    rw [List.cons_append, List.takeWhile_cons, List.dropWhile_cons, ha]
    exact ⟨by rw [if_pos rfl, ih2.1], by rw [if_pos rfl, ih2.2]⟩

/-- The bounds the shape gives on the two portions of an entry. -/
theorem EntradaAcotada.bounds {s : Str} (h : EntradaAcotada s) :
    (porcionEntera s).length ≤ 9 ∧ (porcionDecimal s).length ≤ 8 := by
  obtain ⟨ip, fp, hip, _, h9, h8, hs⟩ := h
  rcases hs with hs | hs
  · rw [hs, (porcionEntera_digits ip hip).1, (porcionEntera_digits ip hip).2]
    exact ⟨h9, by simp⟩
  · rw [hs, (porcionEntera_append_point ip fp hip).1, (porcionEntera_append_point ip fp hip).2]
    exact ⟨h9, h8⟩

/-- Fields of the state `agregarNumeroCuerpo` returns when no operation is
pending: either nothing changes or only the entry does. -/
theorem agregarNumeroCuerpo_frame (c : Calculadora) (t : Str)
    (hop : c.operacion = none) (hr : c.operacionRealizada = false) :
    (agregarNumeroCuerpo c t).operacion = none
      ∧ (agregarNumeroCuerpo c t).operacionRealizada = false := by
  unfold agregarNumeroCuerpo
  simp only []
  split
  · split
    · exact ⟨hop, hr⟩
    · rw [actualizarOperacionCompleta_operacion, actualizarOperacionCompleta_operacionRealizada]
      exact ⟨hop, rfl⟩
  · split
    · exact ⟨hop, hr⟩
    · split
      · exact ⟨hop, hr⟩
      · rw [actualizarOperacionCompleta_operacion,
          actualizarOperacionCompleta_operacionRealizada]
        exact ⟨hop, rfl⟩

/-- The entry after the point is typed. -/
theorem agregarNumeroCuerpo_point (c : Calculadora) :
    (agregarNumeroCuerpo c ".".toList).valorActual =
      if includes c.valorActual '.' then c.valorActual
      else if c.valorActual = "0".toList then "0.".toList
      else c.valorActual ++ ".".toList := by
  unfold agregarNumeroCuerpo
  simp only [if_true]
  split
  · rfl
  · rw [actualizarOperacionCompleta_valorActual]

/-- The entry after a digit is typed. -/
theorem agregarNumeroCuerpo_digit (c : Calculadora) (d : Char) (hd : isDecimalDigit d = true) :
    (agregarNumeroCuerpo c [d]).valorActual =
      if (decide (MAX_DIGITOS ≤ (keepDigits ((split '.' c.valorActual).headD [])).length)
          && !includes c.valorActual '.') = true then c.valorActual
      else if (includes c.valorActual '.'
          && decide (8 ≤ (match (split '.' c.valorActual)[1]? with
                          | some x => x.length
                          | none => 0))) = true then c.valorActual
      else if c.valorActual = "0".toList then [d]
      else c.valorActual ++ [d] := by
  have hne : ([d] : Str) ≠ ".".toList := by
    intro h
    exact digit_ne_point d hd (List.cons.inj h).1
  unfold agregarNumeroCuerpo
  simp only [if_neg hne]
  split
  · rfl
  · split
    · rfl
    · rw [actualizarOperacionCompleta_valorActual]
      simp only [ne_eq, hne, not_false_eq_true, and_true]

/-- One keypad token keeps the shape of the entry, with no operation pending
and `operacionRealizada` clear. -/
theorem agregarNumero_preserva (c : Calculadora) (t : Str)
    (hop : c.operacion = none) (hr : c.operacionRealizada = false)
    (hs : EntradaAcotada c.valorActual) (ht : esToken t = true) :
    (agregarNumero c t).operacion = none ∧ (agregarNumero c t).operacionRealizada = false
      ∧ EntradaAcotada (agregarNumero c t).valorActual := by
  have hbody : agregarNumero c t = agregarNumeroCuerpo c t := by
    simp [agregarNumero, hr]
  rw [hbody]
  refine ⟨(agregarNumeroCuerpo_frame c t hop hr).1, (agregarNumeroCuerpo_frame c t hop hr).2, ?_⟩
  obtain ⟨ip, fp, hip, hfp, h9, h8, hs⟩ := hs
  -- the token is the point or a digit
  have htok : t = ".".toList ∨ ∃ d, isDecimalDigit d = true ∧ t = [d] := by
    match t, ht with
    | [d], ht =>
      simp only [esToken, Bool.or_eq_true, decide_eq_true_eq] at ht
      rcases ht with h | h
      · left; rw [h]; rfl
      · right; exact ⟨d, h, rfl⟩
  rcases htok with rfl | ⟨d, hd, rfl⟩
  · rw [agregarNumeroCuerpo_point]
    rcases hs with hs | hs
    · rw [hs, includes_digits ip hip]
      simp only [Bool.false_eq_true, if_false]
      refine ⟨ip, [], hip, by simp, h9, by simp, Or.inr ?_⟩
      split
      · rename_i h0; rw [h0]; rfl
      · rfl
    · rw [hs, includes_append_point]
      simp only [if_true]
      exact ⟨ip, fp, hip, hfp, h9, h8, Or.inr rfl⟩
  · rw [agregarNumeroCuerpo_digit c d hd]
    rcases hs with hs | hs
    · rw [hs, includes_digits ip hip, split_digits ip hip]
      simp only [List.headD_cons, keepDigits_digits ip hip, Bool.not_false, Bool.and_true,
        decide_eq_true_eq, Bool.false_and, Bool.false_eq_true, if_false]
      split
      · exact ⟨ip, [], hip, by simp, h9, by simp, Or.inl rfl⟩
      · rename_i hlt
        have hlt : ip.length < 9 := by
          simp only [MAX_DIGITOS] at hlt; omega
        split
        · exact ⟨[d], [], by simpa using hd, by simp, by simp, by simp, Or.inl rfl⟩
        · refine ⟨ip ++ [d], [], ?_, by simp, ?_, by simp, Or.inl rfl⟩
          · intro x hx
            rcases List.mem_append.mp hx with hx | hx
            · exact hip x hx
            · rw [List.mem_singleton.mp hx]; exact hd
          · simp; omega
    · have hne0 : ip ++ '.' :: fp ≠ "0".toList := by
        intro h
        have hmem : '.' ∈ ip ++ '.' :: fp := by simp
        rw [h] at hmem
        exact absurd hmem (by decide)
      rw [hs, includes_append_point, split_append_point ip fp hip, split_digits fp hfp]
      simp only [Bool.not_true, Bool.and_false, Bool.false_eq_true, if_false, Bool.true_and,
        decide_eq_true_eq, if_neg hne0]
      split
      · exact ⟨ip, fp, hip, hfp, h9, h8, Or.inr rfl⟩
      · rename_i hlt
        have hlt2 : fp.length < 8 := by
          simp at hlt; omega
        refine ⟨ip, fp ++ [d], hip, ?_, h9, ?_, Or.inr (by simp)⟩
        · intro x hx
          rcases List.mem_append.mp hx with hx | hx
          · exact hfp x hx
          · rw [List.mem_singleton.mp hx]; exact hd
        · simp; omega

/-- The reset state has the shape. -/
theorem inicial_acotada : EntradaAcotada inicial.valorActual :=
  ⟨"0".toList, [], by decide, by simp, by decide, by simp, Or.inl rfl⟩

/-- Every sequence of keypad tokens keeps the shape from any state that has
it, with no operation pending and `operacionRealizada` clear. -/
theorem agregarNumero_foldl_preserva (ts : List Str) (h : ∀ t ∈ ts, esToken t = true) :
    ∀ c : Calculadora, c.operacion = none → c.operacionRealizada = false →
      EntradaAcotada c.valorActual →
      EntradaAcotada (ts.foldl agregarNumero c).valorActual := by
  induction ts with
  | nil => intro c _ _ hs; exact hs
  | cons t rest ih =>
    intro c hop hr hs
    have hstep := agregarNumero_preserva c t hop hr hs (h t (List.mem_cons_self t rest))
    exact ih (fun u hu => h u (List.mem_cons_of_mem t hu)) _ hstep.1 hstep.2.1 hstep.2.2

/-- Method `borrarTodo` always produces the reset state. -/
theorem borrarTodo_eq_inicial (c : Calculadora) : borrarTodo c = inicial := rfl

/-- Method `includes` is list membership. -/
theorem includes_iff_mem (s : Str) (a : Char) : includes s a = true ↔ a ∈ s := by
  simp [includes, List.any_eq_true]

/-- The state after the point is typed, on the body of `agregarNumero`. -/
theorem agregarNumeroCuerpo_point_state (c : Calculadora) :
    agregarNumeroCuerpo c ".".toList =
      if includes c.valorActual '.' = true then c
      else actualizarOperacionCompleta
        { c with
          valorActual :=
            if c.valorActual = "0".toList then "0.".toList else c.valorActual ++ ".".toList
          operacionRealizada := false } := by
  unfold agregarNumeroCuerpo
  simp only [if_true]

/-- After the point is typed the entry contains a point, and the state is not
one in which the next token starts a fresh entry. -/
theorem agregarNumero_point_after (c : Calculadora) :
    includes (agregarNumero c ".".toList).valorActual '.' = true
      ∧ ((agregarNumero c ".".toList).operacionRealizada
          && (agregarNumero c ".".toList).operacion.isNone) = false := by
  unfold agregarNumero
  by_cases hf : (c.operacionRealizada && c.operacion.isNone) = true
  · rw [if_pos hf, borrarTodo_eq_inicial]
    exact ⟨by decide, by decide⟩
  · rw [if_neg hf, agregarNumeroCuerpo_point_state]
    by_cases hi : includes c.valorActual '.' = true
    · rw [if_pos hi]
      exact ⟨hi, Bool.eq_false_iff.mpr hf⟩
    · rw [if_neg hi]
      refine ⟨?_, ?_⟩
      · rw [actualizarOperacionCompleta_valorActual]
        show includes (if c.valorActual = "0".toList then "0.".toList
          else c.valorActual ++ ".".toList) '.' = true
        split
        · decide
        · exact includes_append_point c.valorActual []
      · rw [actualizarOperacionCompleta_operacionRealizada]
        rfl

/-- The entry `borrar` stores, as a function of the entry it finds. -/
theorem borrar_valorActual (c : Calculadora) :
    (borrar c).valorActual =
      if c.valorActual.length = 1 ∨ (c.valorActual.length = 2 ∧ startsWith c.valorActual '-')
      then "0".toList
      else c.valorActual.dropLast := by
  unfold borrar
  rw [actualizarOperacionCompleta_valorActual]

/-- When `operacion` is none of `+ − × ÷`, `calcular` stops at the guard or at
the `default` case: the state is unchanged if an operand does not parse, and
otherwise only `operacionCompleta` is assigned. -/
theorem calcular_otra_operacion (c : Calculadora)
    (h1 : c.operacion ≠ some "+".toList) (h2 : c.operacion ≠ some "−".toList)
    (h3 : c.operacion ≠ some "×".toList) (h4 : c.operacion ≠ some "÷".toList) :
    calcular c =
      if (isNaN (parseFloat c.valorPrevio) || isNaN (parseFloat c.valorActual)) = true then c
      else { c with operacionCompleta := expresion c ++ " =".toList } := by
  unfold calcular
  simp only [if_neg h1, if_neg h2, if_neg h3, if_neg h4]

/-- The body of `agregarNumero` either returns the state it was given or clears
`operacionRealizada`. -/
theorem agregarNumeroCuerpo_flag (c : Calculadora) (t : Str) :
    agregarNumeroCuerpo c t = c ∨ (agregarNumeroCuerpo c t).operacionRealizada = false := by
  unfold agregarNumeroCuerpo
  simp only []
  split
  · split
    · exact Or.inl rfl
    · right; rw [actualizarOperacionCompleta_operacionRealizada]
  · split
    · exact Or.inl rfl
    · split
      · exact Or.inl rfl
      · right; rw [actualizarOperacionCompleta_operacionRealizada]

/-- When `operacion` is none of `+ − × ÷`, `calcular` keeps `valorActual`. -/
theorem calcular_otra_operacion_valorActual (c : Calculadora)
    (h1 : c.operacion ≠ some "+".toList) (h2 : c.operacion ≠ some "−".toList)
    (h3 : c.operacion ≠ some "×".toList) (h4 : c.operacion ≠ some "÷".toList) :
    (calcular c).valorActual = c.valorActual := by
  rw [calcular_otra_operacion c h1 h2 h3 h4]
  by_cases hn : (isNaN (parseFloat c.valorPrevio) || isNaN (parseFloat c.valorActual)) = true
  · rw [if_pos hn]
  · rw [if_neg hn]

/-- The entry `calcularPorcentaje` stores, as a function of the state it
finds. -/
theorem calcularPorcentaje_valorActual (c : Calculadora) :
    (calcularPorcentaje c).valorActual =
      if c.valorActual = "0".toList then c.valorActual
      else if (truthy c.operacion && !c.valorPrevio.isEmpty) = true then
        (if c.operacion = some "+".toList ∨ c.operacion = some "-".toList
            ∨ c.operacion = some "−".toList then
          JS.toString (div (mul (parseFloat c.valorPrevio) (parseFloat c.valorActual))
            (ofNat 100))
         else if c.operacion = some "×".toList ∨ c.operacion = some "÷".toList then
          JS.toString (div (parseFloat c.valorActual) (ofNat 100))
         else c.valorActual)
      else JS.toString (div (parseFloat c.valorActual) (ofNat 100)) := by
  unfold calcularPorcentaje
  split
  · rfl
  · split
    · simp only []
      split
      · rfl
      · split <;> rfl
    · rfl

/-- An integer below `2^53` does not convert to NaN. -/
theorem isNaN_roundToDouble_nat (v : Nat) (h53 : v < 2 ^ 53) :
    isNaN (roundToDouble false v 1) = false := by
  by_cases h0 : v = 0
  · subst h0; decide
  · obtain ⟨k, _, hk⟩ := roundToDouble_nat false v (by omega) h53
    rw [hk]; rfl

/-- A decimal digit is not the comma. -/
theorem digit_ne_comma (d : Char) (hd : isDecimalDigit d = true) : d ≠ ',' := by
  rintro rfl
  exact absurd hd (by decide)

/-- On a non-empty string of at most nine digits, written without a leading
zero, `obtenerNumero` parses the string to its exact value and prints it back
with grouping commas. -/
theorem obtenerNumero_entero (ip : Str) (hip : ∀ c ∈ ip, isDecimalDigit c = true)
    (hlen : ip.length ≤ 9) (hlead : ip = "0".toList ∨ ∃ d t, ip = d :: t ∧ d ≠ '0') :
    isNaN (parseFloat ip) = false ∧ toLocaleString (parseFloat ip) = groupThousands ip := by
  have hne : ip ≠ [] := by
    rcases hlead with h | ⟨d, t, h, _⟩ <;> rw [h] <;> simp
  have hv : digitsValue ip < 2 ^ 53 := by
    have h1 := digitsValue_lt ip hip
    have h2 : 10 ^ ip.length ≤ 10 ^ 9 := Nat.pow_le_pow_right (by decide) hlen
    have h3 : (10 : Nat) ^ 9 < 2 ^ 53 := by norm_num
    omega
  have hback : natDigits (digitsValue ip) = ip := by
    rcases hlead with h | ⟨d, t, h, hd⟩
    · rw [h]; decide
    · exact (natDigits_digitsValue ip hip d t h hd).1
  rw [parseFloat_digits ip hip hne]
  refine ⟨isNaN_roundToDouble_nat _ hv, ?_⟩
  rw [roundToDouble_nat_value _ hv, hback]

/-- Typing the point twice in a row gives the same state as typing it once, in
every state; an entry that was exactly `"0"` becomes `"0."`; and the resulting
entry contains exactly one point whenever the entry the call acts on (the
placeholder `"0"` when a finished result is being discarded, otherwise
`valorActual`) contained at most one. -/
theorem agregarNumero_point_twice (c : Calculadora) :
    agregarNumero (agregarNumero c ".".toList) ".".toList = agregarNumero c ".".toList
    ∧ (c.valorActual = "0".toList → (agregarNumero c ".".toList).valorActual = "0.".toList)
    ∧ (((c.operacionRealizada = true ∧ c.operacion = none) ∨ c.valorActual.count '.' ≤ 1) →
        (agregarNumero c ".".toList).valorActual.count '.' = 1) := by
  refine ⟨?_, ?_, ?_⟩
  · obtain ⟨hinc, hfresh⟩ := agregarNumero_point_after c
    generalize agregarNumero c ".".toList = r at hinc hfresh
    have hf : ¬ ((r.operacionRealizada && r.operacion.isNone) = true) := by
      rw [hfresh]; decide
    unfold agregarNumero
    rw [if_neg hf, agregarNumeroCuerpo_point_state, if_pos hinc]
  · intro h0
    unfold agregarNumero
    split
    · rw [borrarTodo_eq_inicial]; decide
    · rw [agregarNumeroCuerpo_point_state, h0]
      have hi : ¬ (includes "0".toList '.' = true) := by decide
      rw [if_neg hi, actualizarOperacionCompleta_valorActual]
      rfl
  · intro h
    unfold agregarNumero
    by_cases hf : (c.operacionRealizada && c.operacion.isNone) = true
    · rw [if_pos hf, borrarTodo_eq_inicial]; decide
    · rw [if_neg hf, agregarNumeroCuerpo_point_state]
      have hcount : c.valorActual.count '.' ≤ 1 := by
        rcases h with ⟨h1, h2⟩ | h
        · exact absurd (by simp [h1, h2]) hf
        · exact h
      by_cases hi : includes c.valorActual '.' = true
      · rw [if_pos hi]
        have hpos : 0 < c.valorActual.count '.' :=
          List.count_pos_iff.mpr ((includes_iff_mem _ _).mp hi)
        omega
      · rw [if_neg hi, actualizarOperacionCompleta_valorActual]
        have hz : c.valorActual.count '.' = 0 :=
          List.count_eq_zero.mpr (fun hm => hi ((includes_iff_mem _ _).mpr hm))
        show (if c.valorActual = "0".toList then "0.".toList
          else c.valorActual ++ ".".toList).count '.' = 1
        split
        · decide
        · rw [List.count_append, hz]; decide

/-- A formatted result has at most one point. -/
theorem count_point_formatearResultado (x : Number) :
    (formatearResultado x).count '.' ≤ 1 := by
  unfold formatearResultado
  split
  · decide
  · split
    · decide
    · simp only []
      split
      · exact Nat.le_trans
          (((dropPlusE_sublist _).trans (stripZerosE_sublist _)).count_le '.')
          (count_point_toExponential 6 x)
      · refine Nat.le_trans ((stripZerosEnd_sublist _).count_le '.') ?_
        split
        · split
          · exact count_point_toFixed 8 x
          · exact count_point_toString x
        · exact count_point_toString x

/-- The entry after `calcular`: the old one, the error marker, or a formatted
result. -/
theorem calcular_valorActual (c : Calculadora) :
    (calcular c).valorActual = c.valorActual ∨ (calcular c).valorActual = "Error".toList
      ∨ ∃ x, (calcular c).valorActual = formatearResultado x := by
  unfold calcular
  simp only []
  split
  · exact Or.inl rfl
  · split
    · exact Or.inr (Or.inr ⟨_, rfl⟩)
    · split
      · exact Or.inr (Or.inr ⟨_, rfl⟩)
      · split
        · exact Or.inr (Or.inr ⟨_, rfl⟩)
        · split
          · split
            · exact Or.inr (Or.inl rfl)
            · exact Or.inr (Or.inr ⟨_, rfl⟩)
          · exact Or.inl rfl

/-- After `calcular` either `operacion` and `valorPrevio` are as before, or
both are cleared. -/
theorem calcular_operacion_valorPrevio (c : Calculadora) :
    ((calcular c).operacion = c.operacion ∧ (calcular c).valorPrevio = c.valorPrevio)
      ∨ ((calcular c).operacion = none ∧ (calcular c).valorPrevio = []) := by
  unfold calcular
  simp only []
  split
  · exact Or.inl ⟨rfl, rfl⟩
  · split
    · exact Or.inr ⟨rfl, rfl⟩
    · split
      · exact Or.inr ⟨rfl, rfl⟩
      · split
        · exact Or.inr ⟨rfl, rfl⟩
        · split
          · split
            · exact Or.inr ⟨rfl, rfl⟩
            · exact Or.inr ⟨rfl, rfl⟩
          · exact Or.inl ⟨rfl, rfl⟩

/-- The body of `agregarNumero` assigns neither `operacion` nor `valorPrevio`. -/
theorem agregarNumeroCuerpo_operacion_valorPrevio (c : Calculadora) (t : Str) :
    (agregarNumeroCuerpo c t).operacion = c.operacion
      ∧ (agregarNumeroCuerpo c t).valorPrevio = c.valorPrevio := by
  unfold agregarNumeroCuerpo
  simp only []
  split
  · split
    · exact ⟨rfl, rfl⟩
    · rw [actualizarOperacionCompleta_operacion, actualizarOperacionCompleta_valorPrevio]
      exact ⟨rfl, rfl⟩
  · split
    · exact ⟨rfl, rfl⟩
    · split
      · exact ⟨rfl, rfl⟩
      · rw [actualizarOperacionCompleta_operacion, actualizarOperacionCompleta_valorPrevio]
        exact ⟨rfl, rfl⟩

/-- Methods `cambiarSigno`, `borrar` and `calcularPorcentaje` assign neither
`operacion` nor `valorPrevio`. -/
theorem edicion_operacion_valorPrevio (c : Calculadora) :
    ((cambiarSigno c).operacion = c.operacion ∧ (cambiarSigno c).valorPrevio = c.valorPrevio)
    ∧ ((borrar c).operacion = c.operacion ∧ (borrar c).valorPrevio = c.valorPrevio)
    ∧ ((calcularPorcentaje c).operacion = c.operacion
        ∧ (calcularPorcentaje c).valorPrevio = c.valorPrevio) := by
  refine ⟨?_, ?_, ?_⟩
  · unfold cambiarSigno
    split
    · exact ⟨rfl, rfl⟩
    · rw [actualizarOperacionCompleta_operacion, actualizarOperacionCompleta_valorPrevio]
      exact ⟨rfl, rfl⟩
  · unfold borrar
    rw [actualizarOperacionCompleta_operacion, actualizarOperacionCompleta_valorPrevio]
    exact ⟨rfl, rfl⟩
  · unfold calcularPorcentaje
    split
    · exact ⟨rfl, rfl⟩
    · split
      · simp only []
        split
        · exact ⟨rfl, rfl⟩
        · split <;> exact ⟨rfl, rfl⟩
      · exact ⟨rfl, rfl⟩

/-- Every action keeps `valorPrevio` empty while no operation is pending. -/
theorem ejecutar_sin_operacion (c : Calculadora) (a : Accion)
    (h : c.operacion = none → c.valorPrevio = []) :
    (ejecutar c a).operacion = none → (ejecutar c a).valorPrevio = [] := by
  cases a with
  | agregarNumero t =>
    show (agregarNumero c t).operacion = none → (agregarNumero c t).valorPrevio = []
    unfold agregarNumero
    split
    · rw [(agregarNumeroCuerpo_operacion_valorPrevio _ t).1,
        (agregarNumeroCuerpo_operacion_valorPrevio _ t).2]
      intro _; rfl
    · rw [(agregarNumeroCuerpo_operacion_valorPrevio _ t).1,
        (agregarNumeroCuerpo_operacion_valorPrevio _ t).2]
      exact h
  | cambiarSigno =>
    show (cambiarSigno c).operacion = none → (cambiarSigno c).valorPrevio = []
    rw [(edicion_operacion_valorPrevio c).1.1, (edicion_operacion_valorPrevio c).1.2]
    exact h
  | calcularPorcentaje =>
    show (calcularPorcentaje c).operacion = none → (calcularPorcentaje c).valorPrevio = []
    rw [(edicion_operacion_valorPrevio c).2.2.1, (edicion_operacion_valorPrevio c).2.2.2]
    exact h
  | elegirOperacion op =>
    show (elegirOperacion c op).operacion = none → (elegirOperacion c op).valorPrevio = []
    unfold elegirOperacion
    split
    · exact h
    · intro hn
      exact absurd hn (by simp)
  | calcular =>
    show (calcular c).operacion = none → (calcular c).valorPrevio = []
    rcases calcular_operacion_valorPrevio c with ⟨h1, h2⟩ | ⟨_, h2⟩
    · rw [h1, h2]; exact h
    · intro _; exact h2
  | borrar =>
    show (borrar c).operacion = none → (borrar c).valorPrevio = []
    rw [(edicion_operacion_valorPrevio c).2.1.1, (edicion_operacion_valorPrevio c).2.1.2]
    exact h
  | borrarTodo =>
    intro _; rfl

/-- In every state the actions produce from the reset state, `valorPrevio` is
empty while no operation is pending. -/
theorem ejecutarTodas_sin_operacion (as : List Accion) :
    ∀ c : Calculadora, (c.operacion = none → c.valorPrevio = []) →
      (ejecutarTodas c as).operacion = none → (ejecutarTodas c as).valorPrevio = [] := by
  induction as with
  | nil => intro c h; exact h
  | cons a rest ih =>
    intro c h
    exact ih (ejecutar c a) (ejecutar_sin_operacion c a h)

/-- The body of `agregarNumero` on a keypad token keeps the entry at no more
than one point. -/
theorem agregarNumeroCuerpo_un_punto (c : Calculadora) (t : Str) (ht : esToken t = true)
    (h : c.valorActual.count '.' ≤ 1) :
    (agregarNumeroCuerpo c t).valorActual.count '.' ≤ 1 := by
  have htok : t = ".".toList ∨ ∃ d, isDecimalDigit d = true ∧ t = [d] := by
    match t, ht with
    | [d], ht =>
      simp only [esToken, Bool.or_eq_true, decide_eq_true_eq] at ht
      rcases ht with h1 | h1
      · left; rw [h1]; rfl
      · right; exact ⟨d, h1, rfl⟩
  rcases htok with rfl | ⟨d, hd, rfl⟩
  · rw [agregarNumeroCuerpo_point]
    by_cases hi : includes c.valorActual '.' = true
    · rw [if_pos hi]; exact h
    · rw [if_neg hi]
      have hz : c.valorActual.count '.' = 0 :=
        List.count_eq_zero.mpr (fun hm => hi ((includes_iff_mem _ _).mpr hm))
      split
      · decide
      · rw [List.count_append, hz]; decide
  · have hdp : d ≠ '.' := digit_ne_point d hd
    rw [agregarNumeroCuerpo_digit c d hd]
    split
    · exact h
    · split
      · exact h
      · split
        · rw [count_point_cons d hdp]; decide
        · rw [List.count_append, count_point_cons d hdp]
          exact h

/-- Every keypad action keeps the entry at no more than one point. -/
theorem ejecutar_un_punto (c : Calculadora) (a : Accion) (ha : accionTeclado a = true)
    (h : c.valorActual.count '.' ≤ 1) :
    (ejecutar c a).valorActual.count '.' ≤ 1 := by
  cases a with
  | agregarNumero t =>
    show (agregarNumero c t).valorActual.count '.' ≤ 1
    unfold agregarNumero
    split
    · exact agregarNumeroCuerpo_un_punto _ t ha
        (by decide : List.count '.' "0".toList ≤ 1)
    · exact agregarNumeroCuerpo_un_punto _ t ha h
  | cambiarSigno =>
    show (cambiarSigno c).valorActual.count '.' ≤ 1
    rw [cambiarSigno_valorActual]
    split
    · exact h
    · split
      · exact Nat.le_trans ((List.drop_sublist 1 _).count_le '.') h
      · rw [count_point_cons '-' (by decide)]; exact h
  | calcularPorcentaje =>
    show (calcularPorcentaje c).valorActual.count '.' ≤ 1
    rw [calcularPorcentaje_valorActual]
    split
    · exact h
    · split
      · split
        · exact count_point_toString _
        · split
          · exact count_point_toString _
          · exact h
      · exact count_point_toString _
  | elegirOperacion op =>
    show (elegirOperacion c op).valorActual.count '.' ≤ 1
    unfold elegirOperacion
    split
    · exact h
    · exact (by decide : List.count '.' "0".toList ≤ 1)
  | calcular =>
    show (calcular c).valorActual.count '.' ≤ 1
    rcases calcular_valorActual c with h1 | h1 | ⟨x, h1⟩
    · rw [h1]; exact h
    · rw [h1]; decide
    · rw [h1]; exact count_point_formatearResultado x
  | borrar =>
    show (borrar c).valorActual.count '.' ≤ 1
    rw [borrar_valorActual]
    split
    · decide
    · exact Nat.le_trans ((List.dropLast_sublist _).count_le '.') h
  | borrarTodo => exact (by decide : List.count '.' "0".toList ≤ 1)

/-- In every state the keypad actions produce from a state with at most one
point in the entry, the entry has at most one point. -/
theorem ejecutarTodas_un_punto (as : List Accion) (has : ∀ a ∈ as, accionTeclado a = true) :
    ∀ c : Calculadora, c.valorActual.count '.' ≤ 1 →
      (ejecutarTodas c as).valorActual.count '.' ≤ 1 := by
  induction as with
  | nil => intro c h; exact h
  | cons a rest ih =>
    intro c h
    exact ih (fun b hb => has b (List.mem_cons_of_mem a hb)) (ejecutar c a)
      (ejecutar_un_punto c a (has a (List.mem_cons_self a rest)) h)

/-! ### The claims -/

/-- C1. The sequence `2 + 3 × 4 =` from the reset state resolves the pending
addition first (the second operator captures `5`), multiplies by `4` and
leaves no operation pending; the product `20` is stored by
`formatearResultado` as `"2"`, the trailing zero being removed. -/
theorem C1_chained_operation_result :
    ejecutarTodas inicial
        [.agregarNumero "2".toList, .elegirOperacion "+".toList, .agregarNumero "3".toList,
         .elegirOperacion "×".toList, .agregarNumero "4".toList]
      = { valorActual := "4".toList, valorPrevio := "5".toList, operacion := some "×".toList,
          operacionCompleta := "5 × 4".toList, operacionRealizada := false }
    ∧ mul (parseFloat "5".toList) (parseFloat "4".toList) = ofNat 20
    ∧ JS.toString (ofNat 20) = "20".toList
    ∧ ejecutarTodas inicial
        [.agregarNumero "2".toList, .elegirOperacion "+".toList, .agregarNumero "3".toList,
         .elegirOperacion "×".toList, .agregarNumero "4".toList, .calcular]
      = { valorActual := "2".toList, valorPrevio := [], operacion := none,
          operacionCompleta := "5 × 4 =".toList, operacionRealizada := true } := by
  decide

/-- C2. On the integers 20, 100 and 0 `formatearResultado` removes digits of
the integer itself: the results are `"2"`, `"1"` and the empty string, while
`toString` gives `"20"`, `"100"` and `"0"`. -/
theorem C2_formatearResultado_strips_integer_zeros :
    formatearResultado (ofNat 20) = "2".toList ∧ JS.toString (ofNat 20) = "20".toList
    ∧ formatearResultado (ofNat 100) = "1".toList ∧ JS.toString (ofNat 100) = "100".toList
    ∧ formatearResultado (ofNat 0) = [] ∧ JS.toString (ofNat 0) = "0".toList := by
  decide

/-- C3. Division by zero: with `÷` pending, a `valorPrevio` that parses as a
number and a `valorActual` that parses to zero, `calcular` stores `"Error"`,
the fixed message, no operation, an empty `valorPrevio` and sets
`operacionRealizada`. -/
theorem C3_division_by_zero (c : Calculadora)
    (hop : c.operacion = some "÷".toList)
    (hprev : isNaN (parseFloat c.valorPrevio) = false)
    (hact : isZero (parseFloat c.valorActual) = true) :
    calcular c =
      { valorActual := "Error".toList
        operacionCompleta := "No se puede dividir por 0".toList
        operacion := none
        valorPrevio := []
        operacionRealizada := true } := by
  have hact2 : isNaN (parseFloat c.valorActual) = false := by
    cases h : parseFloat c.valorActual <;> simp_all [isNaN, isZero]
  have h1 : (some "÷".toList : Option Str) ≠ some "+".toList := by decide
  have h2 : (some "÷".toList : Option Str) ≠ some "−".toList := by decide
  have h3 : (some "÷".toList : Option Str) ≠ some "×".toList := by decide
  simp only [calcular, hprev, hact2, hact, hop, Bool.or_self, Bool.false_eq_true, if_false,
    if_true, if_neg h1, if_neg h2, if_neg h3]

/-- C3 at previous = `"8"`, current = `"0"`. -/
theorem C3_division_by_zero_witness :
    calcular { valorActual := "0".toList, valorPrevio := "8".toList,
               operacion := some "÷".toList, operacionCompleta := "8 ÷ 0".toList,
               operacionRealizada := false }
      = { valorActual := "Error".toList
          operacionCompleta := "No se puede dividir por 0".toList
          operacion := none
          valorPrevio := []
          operacionRealizada := true } :=
  C3_division_by_zero _ (by decide) (by decide) (by decide)

/-- C4. Digit limits: after any finite sequence of `agregarNumero` calls with
keypad tokens (a decimal digit or the point) from the reset state, the integer
portion of `valorActual` has at most 9 characters and the fractional portion
at most 8. -/
theorem C4_digit_limits (ts : List Str) (h : ∀ t ∈ ts, esToken t = true) :
    (porcionEntera (ts.foldl agregarNumero inicial).valorActual).length ≤ 9
      ∧ (porcionDecimal (ts.foldl agregarNumero inicial).valorActual).length ≤ 8 :=
  (agregarNumero_foldl_preserva ts h inicial rfl rfl inicial_acotada).bounds

/-- C4 on eleven digits, two points and ten more digits: the entry stops at
`123456789.12345678`. -/
theorem C4_digit_limits_witness :
    (["1", "2", "3", "4", "5", "6", "7", "8", "9", "0", "1", ".", ".", "1", "2", "3", "4",
        "5", "6", "7", "8", "9", "0"].map String.toList).foldl agregarNumero inicial
      = { inicial with valorActual := "123456789.12345678".toList }
    ∧ (porcionEntera ((["1", "2", "3", "4", "5", "6", "7", "8", "9", "0", "1", ".", ".", "1",
        "2", "3", "4", "5", "6", "7", "8", "9", "0"].map String.toList).foldl
          agregarNumero inicial).valorActual).length ≤ 9
    ∧ (porcionDecimal ((["1", "2", "3", "4", "5", "6", "7", "8", "9", "0", "1", ".", ".", "1",
        "2", "3", "4", "5", "6", "7", "8", "9", "0"].map String.toList).foldl
          agregarNumero inicial).valorActual).length ≤ 8 :=
  ⟨by decide, C4_digit_limits _ (by decide)⟩

/-- C5. The sequence `5 − 5 =` from the reset state ends with `valorActual`
empty: `formatearResultado` turns the difference `0` into the empty string. -/
theorem C5_empty_valorActual_reachable :
    sub (parseFloat "5".toList) (parseFloat "5".toList) = ofNat 0
    ∧ formatearResultado (ofNat 0) = []
    ∧ (ejecutarTodas inicial
        [.agregarNumero "5".toList, .elegirOperacion "−".toList, .agregarNumero "5".toList,
         .calcular]).valorActual = [] := by
  decide

/-- C6. After `5 − 5 =` and then `+` from the reset state an operation is
pending while `valorPrevio` is empty: the operator captured the empty
`valorActual` left by the computation. -/
theorem C6_pending_with_empty_valorPrevio :
    ejecutarTodas inicial
        [.agregarNumero "5".toList, .elegirOperacion "−".toList, .agregarNumero "5".toList,
         .calcular, .elegirOperacion "+".toList]
      = { valorActual := "0".toList, valorPrevio := [], operacion := some "+".toList,
          operacionCompleta := " +".toList, operacionRealizada := false } := by
  decide

/-- C7 (as amended). Applying `cambiarSigno` twice gives back the original
`valorActual` exactly when it is not `"-0"` and does not begin with two minus
signs; in particular for every numeral other than `"-0"`. -/
theorem C7_cambiarSigno_twice (c : Calculadora) :
    (cambiarSigno (cambiarSigno c)).valorActual = c.valorActual
      ↔ (c.valorActual ≠ "-0".toList ∧ ¬ ("--".toList <+: c.valorActual)) := by
  rw [cambiarSigno_valorActual, cambiarSigno_valorActual]
  generalize c.valorActual = s
  by_cases h0 : s = "0".toList
  · subst h0; decide
  · rw [if_neg h0]
    cases s with
    | nil => decide
    | cons a t =>
      by_cases ha : a = '-'
      · subst ha
        have hs : startsWith ('-' :: t) '-' = true := by simp [startsWith]
        simp only [hs, if_true, List.drop_succ_cons, List.drop_zero]
        by_cases ht : t = "0".toList
        · subst ht; decide
        · rw [if_neg ht]
          cases t with
          | nil => decide
          | cons b u =>
            by_cases hb : b = '-'
            · subst hb
              have hs2 : startsWith ('-' :: u) '-' = true := by simp [startsWith]
              simp only [hs2, if_true]
              constructor
              · intro h
                have hl := congrArg List.length h
                simp only [List.drop_succ_cons, List.drop_zero, List.length_cons] at hl
                omega
              · intro h
                exact absurd (by simp [String.toList]) h.2
            · have hs2 : startsWith (b :: u) '-' = false := by simp [startsWith, hb]
              simp only [hs2, Bool.false_eq_true, if_false, true_iff]
              refine ⟨?_, ?_⟩
              · intro h
                exact ht (List.cons.inj h).2
              · intro h
                have h1 : '-' = b := by
                  simpa [String.toList] using h
                exact hb h1.symm
      · have hs : startsWith (a :: t) '-' = false := by simp [startsWith, ha]
        have hs1 : startsWith ('-' :: a :: t) '-' = true := by simp [startsWith]
        have hne : ('-' :: a :: t) ≠ "0".toList := by
          intro h
          have hl := congrArg List.length h
          simp at hl
        simp only [hs, Bool.false_eq_true, if_false, if_neg hne, hs1, if_true,
          List.drop_succ_cons, List.drop_zero, true_iff]
        refine ⟨?_, ?_⟩
        · intro h
          exact ha (List.cons.inj h).1
        · intro h
          have h1 : '-' = a := by
            have := (List.cons_prefix_cons.mp h).1
            exact this
          exact ha h1.symm

/-- C7 (as stated) fails at `"-0"`, the entry left by typing `.`, toggling the
sign and backspacing: it differs from `"0"`, and two calls of `cambiarSigno`
leave `"0"` instead of the original entry. -/
theorem C7_counterexample :
    (ejecutarTodas inicial [.agregarNumero ".".toList, .cambiarSigno, .borrar]).valorActual
        = "-0".toList
    ∧ (ejecutarTodas inicial
        [.agregarNumero ".".toList, .cambiarSigno, .borrar]).valorActual ≠ "0".toList
    ∧ (cambiarSigno (cambiarSigno (ejecutarTodas inicial
        [.agregarNumero ".".toList, .cambiarSigno, .borrar]))).valorActual = "0".toList
    ∧ (cambiarSigno (cambiarSigno (ejecutarTodas inicial
        [.agregarNumero ".".toList, .cambiarSigno, .borrar]))).valorActual
        ≠ (ejecutarTodas inicial
            [.agregarNumero ".".toList, .cambiarSigno, .borrar]).valorActual := by
  decide

/-- C8. Method `agregarNumero('.')` is idempotent: calling it twice in a row
gives the same state as calling it once (in every state), an entry that was
exactly `"0"` becomes `"0."`, and in every state the keypad actions produce
from the reset state the resulting `valorActual` contains exactly one decimal
point. -/
theorem C8_point_idempotent (c : Calculadora) (as : List Accion)
    (has : ∀ a ∈ as, accionTeclado a = true) :
    agregarNumero (agregarNumero c ".".toList) ".".toList = agregarNumero c ".".toList
    ∧ (c.valorActual = "0".toList → (agregarNumero c ".".toList).valorActual = "0.".toList)
    ∧ agregarNumero (agregarNumero (ejecutarTodas inicial as) ".".toList) ".".toList
        = agregarNumero (ejecutarTodas inicial as) ".".toList
    ∧ (agregarNumero (ejecutarTodas inicial as) ".".toList).valorActual.count '.' = 1 :=
  ⟨(agregarNumero_point_twice c).1, (agregarNumero_point_twice c).2.1,
    (agregarNumero_point_twice _).1,
    (agregarNumero_point_twice _).2.2
      (Or.inr (ejecutarTodas_un_punto as has inicial (by decide)))⟩

/-- C8 at the reset state (entry `"0."`) and at the state the keys
`2 . 5 × 1 . 5 =`, a sign toggle, a percent and a backspace leave (entry
`"-0.037"`): a second point changes nothing and the entry holds one point. -/
theorem C8_point_idempotent_witness :
    (agregarNumero inicial ".".toList).valorActual = "0.".toList
    ∧ (ejecutarTodas inicial
        [.agregarNumero "2".toList, .agregarNumero ".".toList, .agregarNumero "5".toList,
         .elegirOperacion "×".toList, .agregarNumero "1".toList, .agregarNumero ".".toList,
         .agregarNumero "5".toList, .calcular, .cambiarSigno, .calcularPorcentaje,
         .borrar]).valorActual = "-0.037".toList
    ∧ agregarNumero (agregarNumero (ejecutarTodas inicial
        [.agregarNumero "2".toList, .agregarNumero ".".toList, .agregarNumero "5".toList,
         .elegirOperacion "×".toList, .agregarNumero "1".toList, .agregarNumero ".".toList,
         .agregarNumero "5".toList, .calcular, .cambiarSigno, .calcularPorcentaje,
         .borrar]) ".".toList) ".".toList
      = agregarNumero (ejecutarTodas inicial
        [.agregarNumero "2".toList, .agregarNumero ".".toList, .agregarNumero "5".toList,
         .elegirOperacion "×".toList, .agregarNumero "1".toList, .agregarNumero ".".toList,
         .agregarNumero "5".toList, .calcular, .cambiarSigno, .calcularPorcentaje,
         .borrar]) ".".toList
    ∧ (agregarNumero (ejecutarTodas inicial
        [.agregarNumero "2".toList, .agregarNumero ".".toList, .agregarNumero "5".toList,
         .elegirOperacion "×".toList, .agregarNumero "1".toList, .agregarNumero ".".toList,
         .agregarNumero "5".toList, .calcular, .cambiarSigno, .calcularPorcentaje,
         .borrar]) ".".toList).valorActual.count '.' = 1 :=
  ⟨(C8_point_idempotent inicial [] (by decide)).2.1 rfl, by decide,
    (C8_point_idempotent inicial _ (by decide)).2.2.1,
    (C8_point_idempotent inicial _ (by decide)).2.2.2⟩

/-- C9. Method `calcular` with no pending operation is a no-op: in every state
the actions produce from the reset state in which `operacion` is undefined,
the state after `calcular` equals the state before in all five fields. -/
theorem C9_calcular_without_operation (as : List Accion)
    (h : (ejecutarTodas inicial as).operacion = none) :
    calcular (ejecutarTodas inicial as) = ejecutarTodas inicial as := by
  have hp : (ejecutarTodas inicial as).valorPrevio = [] :=
    ejecutarTodas_sin_operacion as inicial (fun _ => rfl) h
  generalize ejecutarTodas inicial as = c at h hp
  have hnan : isNaN (parseFloat c.valorPrevio) = true := by rw [hp]; decide
  rw [calcular_otra_operacion c (by rw [h]; decide) (by rw [h]; decide) (by rw [h]; decide)
    (by rw [h]; decide), hnan]
  rfl

/-- C9 at the reset state and at the state `2 + 3 =` leaves (entry `"5"`,
nothing pending): `calcular` changes nothing. -/
theorem C9_calcular_without_operation_witness :
    calcular inicial = inicial
    ∧ ejecutarTodas inicial
        [.agregarNumero "2".toList, .elegirOperacion "+".toList, .agregarNumero "3".toList,
         .calcular]
      = { valorActual := "5".toList, valorPrevio := [], operacion := none,
          operacionCompleta := "2 + 3 =".toList, operacionRealizada := true }
    ∧ calcular (ejecutarTodas inicial
        [.agregarNumero "2".toList, .elegirOperacion "+".toList, .agregarNumero "3".toList,
         .calcular])
      = ejecutarTodas inicial
        [.agregarNumero "2".toList, .elegirOperacion "+".toList, .agregarNumero "3".toList,
         .calcular] :=
  ⟨C9_calcular_without_operation [] rfl, by decide,
    C9_calcular_without_operation _ (by decide)⟩

/-- C10. Fresh entry after a result: when `operacionRealizada` is set and no
operation is pending, `agregarNumero(d)` for a digit `d` leaves exactly `d` in
`valorActual`, with `valorPrevio` and `operacionCompleta` empty, no operation
and `operacionRealizada` cleared. -/
theorem C10_fresh_entry_after_result (c : Calculadora) (d : Char)
    (hr : c.operacionRealizada = true) (hop : c.operacion = none)
    (hd : isDecimalDigit d = true) :
    agregarNumero c [d] =
      { valorActual := [d], valorPrevio := [], operacion := none,
        operacionCompleta := [], operacionRealizada := false } := by
  have hne : ([d] : Str) ≠ ".".toList := by
    intro h
    exact digit_ne_point d hd (List.cons.inj h).1
  have h9 : (decide (MAX_DIGITOS ≤ (keepDigits ((split '.' "0".toList).headD [])).length)
      && !false) = false := by decide
  have h8 : includes "0".toList '.' = false := by decide
  simp only [agregarNumero, hr, hop, Option.isNone_none, Bool.and_self, if_true,
    agregarNumeroCuerpo, borrarTodo, if_neg hne, h8, h9, Bool.false_and, Bool.false_eq_true,
    if_false, ne_eq, hne, not_false_eq_true, and_self, if_true]
  rw [actualizarOperacionCompleta_none _ rfl]

/-- C10 at the `"Error"` state left by a division by zero, with digit `7`. -/
theorem C10_fresh_entry_after_result_witness :
    agregarNumero
        { valorActual := "Error".toList, valorPrevio := [], operacion := none,
          operacionCompleta := "No se puede dividir por 0".toList, operacionRealizada := true }
        ['7']
      = { valorActual := ['7'], valorPrevio := [], operacion := none,
          operacionCompleta := [], operacionRealizada := false } :=
  C10_fresh_entry_after_result _ '7' rfl rfl (by decide)

/-- C11 (as amended). Context-sensitive percent: for every state with
`valorActual ≠ "0"`, `calcularPorcentaje` stores the string of
`valorPrevio × valorActual ÷ 100` when the pending operation is `+` or `−` and
`valorPrevio` is not empty, and the string of `valorActual ÷ 100` when the
pending operation is `×` or `÷`, when no operation is pending, or when
`valorPrevio` is empty. -/
theorem C11_percent_by_context (c : Calculadora) (h0 : c.valorActual ≠ "0".toList) :
    ((c.operacion = some "+".toList ∨ c.operacion = some "−".toList) → c.valorPrevio ≠ [] →
        (calcularPorcentaje c).valorActual =
          JS.toString (div (mul (parseFloat c.valorPrevio) (parseFloat c.valorActual))
            (ofNat 100)))
    ∧ ((c.operacion = some "×".toList ∨ c.operacion = some "÷".toList ∨ c.operacion = none
          ∨ c.valorPrevio = []) →
        (calcularPorcentaje c).valorActual =
          JS.toString (div (parseFloat c.valorActual) (ofNat 100))) := by
  rw [calcularPorcentaje_valorActual, if_neg h0]
  refine ⟨?_, ?_⟩
  · intro hop hp
    have hp2 : c.valorPrevio.isEmpty = false := by
      cases hv : c.valorPrevio with
      | nil => exact absurd hv hp
      | cons a t => rfl
    have ht : truthy c.operacion = true := by
      rcases hop with hop | hop <;> rw [hop] <;> decide
    have hg : (truthy c.operacion && !c.valorPrevio.isEmpty) = true := by
      rw [ht, hp2]; rfl
    have hadd : c.operacion = some "+".toList ∨ c.operacion = some "-".toList
        ∨ c.operacion = some "−".toList := by
      rcases hop with hop | hop
      · exact Or.inl hop
      · exact Or.inr (Or.inr hop)
    rw [if_pos hg, if_pos hadd]
  · intro hop
    by_cases hg : (truthy c.operacion && !c.valorPrevio.isEmpty) = true
    · rw [if_pos hg]
      have hne : c.valorPrevio ≠ [] := by
        intro hv
        rw [hv] at hg
        simp at hg
      have hsome : c.operacion ≠ none := by
        intro hn
        rw [hn] at hg
        simp [truthy] at hg
      have hmul : c.operacion = some "×".toList ∨ c.operacion = some "÷".toList := by
        rcases hop with hop | hop | hop | hop
        · exact Or.inl hop
        · exact Or.inr hop
        · exact absurd hop hsome
        · exact absurd hop hne
      have hnadd : ¬ (c.operacion = some "+".toList ∨ c.operacion = some "-".toList
          ∨ c.operacion = some "−".toList) := by
        rcases hmul with h | h <;> rw [h] <;> decide
      rw [if_neg hnadd, if_pos hmul]
    · rw [if_neg hg]

/-- C11 at previous = `"200"`, current = `"10"`, operation `+`: the entry
becomes `"20"`. -/
theorem C11_percent_by_context_witness :
    (calcularPorcentaje { valorActual := "10".toList, valorPrevio := "200".toList,
                          operacion := some "+".toList, operacionCompleta := "200 + 10".toList,
                          operacionRealizada := false }).valorActual
        = JS.toString (div (mul (parseFloat "200".toList) (parseFloat "10".toList)) (ofNat 100))
    ∧ JS.toString (div (mul (parseFloat "200".toList) (parseFloat "10".toList)) (ofNat 100))
        = "20".toList :=
  ⟨(C11_percent_by_context _ (by decide)).1 (Or.inl rfl) (by decide), by decide⟩

/-- C11 (as stated) fails when `+` is pending over an empty `valorPrevio`, as
after `5 − 5 = + 5` from the reset state: `calcularPorcentaje` stores
`"0.05"`, the string of `5 ÷ 100`, while `valorPrevio × valorActual ÷ 100`
is NaN. -/
theorem C11_counterexample :
    ejecutarTodas inicial
        [.agregarNumero "5".toList, .elegirOperacion "−".toList, .agregarNumero "5".toList,
         .calcular, .elegirOperacion "+".toList, .agregarNumero "5".toList]
      = { valorActual := "5".toList, valorPrevio := [], operacion := some "+".toList,
          operacionCompleta := " + 5".toList, operacionRealizada := false }
    ∧ (calcularPorcentaje
        { valorActual := "5".toList, valorPrevio := [], operacion := some "+".toList,
          operacionCompleta := " + 5".toList, operacionRealizada := false }).valorActual
        = "0.05".toList
    ∧ JS.toString (div (mul (parseFloat []) (parseFloat "5".toList)) (ofNat 100))
        = "NaN".toList := by
  decide

/-- C12. Frame of percent: `calcularPorcentaje` leaves `operacion`,
`valorPrevio` and `operacionRealizada` unchanged in every state, and leaves
the whole state unchanged when `valorActual` is exactly `"0"`. -/
theorem C12_percent_frame (c : Calculadora) :
    (calcularPorcentaje c).operacion = c.operacion
    ∧ (calcularPorcentaje c).valorPrevio = c.valorPrevio
    ∧ (calcularPorcentaje c).operacionRealizada = c.operacionRealizada
    ∧ (c.valorActual = "0".toList → calcularPorcentaje c = c) := by
  refine ⟨?_, ?_, ?_, ?_⟩
  · unfold calcularPorcentaje
    split
    · rfl
    · split
      · simp only []
        split
        · rfl
        · split <;> rfl
      · rfl
  · unfold calcularPorcentaje
    split
    · rfl
    · split
      · simp only []
        split
        · rfl
        · split <;> rfl
      · rfl
  · unfold calcularPorcentaje
    split
    · rfl
    · split
      · simp only []
        split
        · rfl
        · split <;> rfl
      · rfl
  · intro h
    simp only [calcularPorcentaje, if_pos h]

/-- C12 at an entry `"0"` with `+` pending over `"200"`: nothing changes. -/
theorem C12_percent_frame_witness :
    calcularPorcentaje { valorActual := "0".toList, valorPrevio := "200".toList,
                         operacion := some "+".toList, operacionCompleta := "200 +".toList,
                         operacionRealizada := false }
      = { valorActual := "0".toList, valorPrevio := "200".toList,
          operacion := some "+".toList, operacionCompleta := "200 +".toList,
          operacionRealizada := false } :=
  (C12_percent_frame _).2.2.2 rfl

/-- C13. Backspace: when `valorActual` is a single character, or a minus sign
followed by a single character, `borrar` stores `"0"`; for every other
non-empty `valorActual` it removes exactly the last character and the entry
stays non-empty; in every case `operacionRealizada` becomes false. -/
theorem C13_borrar (c : Calculadora) :
    ((c.valorActual.length = 1 ∨ ∃ x, c.valorActual = ['-', x]) →
        (borrar c).valorActual = "0".toList)
    ∧ (c.valorActual ≠ [] → ¬ (c.valorActual.length = 1 ∨ ∃ x, c.valorActual = ['-', x]) →
        (borrar c).valorActual = c.valorActual.dropLast
        ∧ (∃ x, c.valorActual = (borrar c).valorActual ++ [x])
        ∧ (borrar c).valorActual ≠ [])
    ∧ (borrar c).operacionRealizada = false := by
  have hiff : (c.valorActual.length = 1
        ∨ (c.valorActual.length = 2 ∧ startsWith c.valorActual '-' = true))
      ↔ (c.valorActual.length = 1 ∨ ∃ x, c.valorActual = ['-', x]) := by
    constructor
    · rintro (h | ⟨h2, hs⟩)
      · exact Or.inl h
      · right
        match hv : c.valorActual, h2, hs with
        | [a, b], _, hs =>
          have ha : a = '-' := by simpa [startsWith] using hs
          exact ⟨b, by rw [ha]⟩
    · rintro (h | ⟨x, hx⟩)
      · exact Or.inl h
      · right; rw [hx]; exact ⟨rfl, by simp [startsWith]⟩
  rw [borrar_valorActual]
  refine ⟨?_, ?_, ?_⟩
  · intro h
    rw [if_pos (hiff.mpr h)]
  · intro hne h
    rw [if_neg (fun hh => h (hiff.mp hh))]
    refine ⟨rfl, ⟨c.valorActual.getLast hne, (List.dropLast_append_getLast hne).symm⟩, ?_⟩
    intro hd
    have hl := congrArg List.length hd
    rw [List.length_dropLast] at hl
    have hpos : 0 < c.valorActual.length := List.length_pos.mpr hne
    have h1 : c.valorActual.length ≠ 1 := fun h1 => h (Or.inl h1)
    simp only [List.length_nil] at hl
    omega
  · unfold borrar
    rw [actualizarOperacionCompleta_operacionRealizada]

/-- C13 on the entries `"7"`, `"-7"` and `"12.5"` after a result. -/
theorem C13_borrar_witness :
    (borrar { inicial with valorActual := "7".toList, operacionRealizada := true }).valorActual
        = "0".toList
    ∧ (borrar { inicial with valorActual := "-7".toList }).valorActual = "0".toList
    ∧ (borrar { inicial with valorActual := "12.5".toList }).valorActual = "12.".toList
    ∧ (borrar { inicial with valorActual := "7".toList,
                             operacionRealizada := true }).operacionRealizada = false :=
  ⟨(C13_borrar _).1 (Or.inl rfl), (C13_borrar _).1 (Or.inr ⟨'7', rfl⟩),
    ((C13_borrar { inicial with valorActual := "12.5".toList }).2.1 (by decide)
      (fun h => h.elim (fun h1 => absurd h1 (by decide))
        (fun ⟨_, hx⟩ => absurd (congrArg List.length hx) (by simp)))).1,
    (C13_borrar _).2.2⟩

/-- C14. Method `elegirOperacion(op)` returns the state unchanged when
`valorActual` is `"0"` and `valorPrevio` is empty; otherwise, when no operation
was pending (`operacion` undefined, or nothing captured in `valorPrevio`), it
stores `operacion = op`, `valorPrevio` = the old `valorActual`,
`valorActual = "0"` and `operacionRealizada = false`. -/
theorem C14_elegirOperacion (c : Calculadora) (op : Str) :
    ((c.valorActual = "0".toList ∧ c.valorPrevio = []) → elegirOperacion c op = c)
    ∧ (¬ (c.valorActual = "0".toList ∧ c.valorPrevio = []) →
        (c.operacion = none ∨ c.valorPrevio = []) →
        (elegirOperacion c op).operacion = some op
        ∧ (elegirOperacion c op).valorPrevio = c.valorActual
        ∧ (elegirOperacion c op).valorActual = "0".toList
        ∧ (elegirOperacion c op).operacionRealizada = false) := by
  refine ⟨?_, ?_⟩
  · intro h
    simp only [elegirOperacion, if_pos h]
  · intro h hpend
    simp only [elegirOperacion, if_neg h]
    refine ⟨trivial, ?_, trivial, trivial⟩
    by_cases hp : c.valorPrevio = []
    · simp only [hp, ne_eq, not_true_eq_false, if_false]
    · have hop : c.operacion = none := by
        rcases hpend with h1 | h1
        · exact h1
        · exact absurd h1 hp
      simp only [ne_eq, hp, not_false_eq_true, if_true]
      exact calcular_otra_operacion_valorActual _
        (by show c.operacion ≠ _; rw [hop]; decide) (by show c.operacion ≠ _; rw [hop]; decide)
        (by show c.operacion ≠ _; rw [hop]; decide) (by show c.operacion ≠ _; rw [hop]; decide)

/-- C14 at the entry `"12"` with nothing pending, operator `×`. -/
theorem C14_elegirOperacion_witness :
    elegirOperacion inicial "×".toList = inicial
    ∧ (elegirOperacion { inicial with valorActual := "12".toList } "×".toList).operacion
        = some "×".toList
    ∧ (elegirOperacion { inicial with valorActual := "12".toList } "×".toList).valorPrevio
        = "12".toList
    ∧ (elegirOperacion { inicial with valorActual := "12".toList } "×".toList).valorActual
        = "0".toList
    ∧ (elegirOperacion { inicial with valorActual := "12".toList }
        "×".toList).operacionRealizada = false :=
  ⟨(C14_elegirOperacion inicial _).1 ⟨rfl, rfl⟩,
    (C14_elegirOperacion { inicial with valorActual := "12".toList } _).2 (by decide)
      (Or.inl rfl)⟩

/-- C15 (as amended). The flag `operacionRealizada` is false after every
`agregarNumero` (digit or point) and every `elegirOperacion` that changes the
state, and after every `borrar`; `cambiarSigno` leaves the flag as it finds
it. -/
theorem C15_operacionRealizada_after_actions (c : Calculadora) :
    (∀ t : Str, agregarNumero c t ≠ c → (agregarNumero c t).operacionRealizada = false)
    ∧ (∀ op : Str, elegirOperacion c op ≠ c → (elegirOperacion c op).operacionRealizada = false)
    ∧ (borrar c).operacionRealizada = false
    ∧ (cambiarSigno c).operacionRealizada = c.operacionRealizada := by
  refine ⟨?_, ?_, ?_, ?_⟩
  · intro t hne
    unfold agregarNumero at hne ⊢
    split
    · exact (agregarNumeroCuerpo_frame (borrarTodo c) t rfl rfl).2
    · rename_i hf
      rw [if_neg hf] at hne
      rcases agregarNumeroCuerpo_flag c t with h | h
      · exact absurd h hne
      · exact h
  · intro op hne
    unfold elegirOperacion at hne ⊢
    split
    · rename_i h
      rw [if_pos h] at hne
      exact absurd rfl hne
    · rfl
  · unfold borrar
    rw [actualizarOperacionCompleta_operacionRealizada]
  · unfold cambiarSigno
    split
    · rfl
    · rw [actualizarOperacionCompleta_operacionRealizada]

/-- C15 on the state `2 + 3 =` leaves (entry `"5"`, flag set): a digit, an
operator and a backspace clear the flag, a sign toggle keeps it set. -/
theorem C15_operacionRealizada_after_actions_witness :
    (agregarNumero
        { valorActual := "5".toList, valorPrevio := [], operacion := none,
          operacionCompleta := "2 + 3 =".toList, operacionRealizada := true }
        "7".toList).operacionRealizada = false
    ∧ (elegirOperacion
        { valorActual := "5".toList, valorPrevio := [], operacion := none,
          operacionCompleta := "2 + 3 =".toList, operacionRealizada := true }
        "+".toList).operacionRealizada = false
    ∧ (borrar
        { valorActual := "5".toList, valorPrevio := [], operacion := none,
          operacionCompleta := "2 + 3 =".toList, operacionRealizada := true }).operacionRealizada
        = false
    ∧ (cambiarSigno
        { valorActual := "5".toList, valorPrevio := [], operacion := none,
          operacionCompleta := "2 + 3 =".toList, operacionRealizada := true }).operacionRealizada
        = true :=
  ⟨(C15_operacionRealizada_after_actions _).1 _ (by decide),
    (C15_operacionRealizada_after_actions _).2.1 _ (by decide),
    (C15_operacionRealizada_after_actions _).2.2.1,
    (C15_operacionRealizada_after_actions _).2.2.2⟩

/-- C15 (as stated) fails after `2 + 3 =` from the reset state: the entry is
`"5"`, not `"0"`, the flag is set, and `cambiarSigno` stores `"-5"` with the
flag still set. -/
theorem C15_counterexample :
    ejecutarTodas inicial
        [.agregarNumero "2".toList, .elegirOperacion "+".toList, .agregarNumero "3".toList,
         .calcular]
      = { valorActual := "5".toList, valorPrevio := [], operacion := none,
          operacionCompleta := "2 + 3 =".toList, operacionRealizada := true }
    ∧ cambiarSigno
        { valorActual := "5".toList, valorPrevio := [], operacion := none,
          operacionCompleta := "2 + 3 =".toList, operacionRealizada := true }
      = { valorActual := "-5".toList, valorPrevio := [], operacion := none,
          operacionCompleta := "2 + 3 =".toList, operacionRealizada := true } := by
  decide

/-- C16 (as amended). In the state left by an overflowing computation
(`valorActual = "Infinity"`, nothing pending, `valorPrevio` empty,
`operacionRealizada` set) `calcular` changes nothing, but `elegirOperacion(op)`
takes effect: it captures `"Infinity"` in `valorPrevio`, stores `op`, resets the
entry to `"0"`, clears the flag and writes `"∞ op"` to `operacionCompleta`. -/
theorem C16_infinity_state (oc op : Str) :
    calcular { valorActual := "Infinity".toList, valorPrevio := [], operacion := none,
               operacionCompleta := oc, operacionRealizada := true }
      = { valorActual := "Infinity".toList, valorPrevio := [], operacion := none,
          operacionCompleta := oc, operacionRealizada := true }
    ∧ elegirOperacion { valorActual := "Infinity".toList, valorPrevio := [], operacion := none,
                        operacionCompleta := oc, operacionRealizada := true } op
      = { valorActual := "0".toList, valorPrevio := "Infinity".toList, operacion := some op,
          operacionCompleta := "∞ ".toList ++ op, operacionRealizada := false } := by
  refine ⟨?_, ?_⟩
  · rw [calcular_otra_operacion _ (by simp) (by simp) (by simp) (by simp)]
    rfl
  · have h : ¬ (("Infinity".toList : Str) = "0".toList ∧ ([] : Str) = []) := by decide
    have hn : obtenerNumero "Infinity".toList = "∞".toList := by decide
    simp only [elegirOperacion, if_neg h, List.isEmpty_nil, if_true, ne_eq, not_true_eq_false,
      if_false, hn]
    rfl

/-- C16 (as stated) fails for `elegirOperacion`: on the `"Infinity"` state left
by `1e308 × 10 =` the operator `+` is accepted, and `Infinity + 5 =` then
computes again. -/
theorem C16_counterexample :
    elegirOperacion { valorActual := "Infinity".toList, valorPrevio := [], operacion := none,
                      operacionCompleta := "1e308 × 10 =".toList, operacionRealizada := true }
        "+".toList
      = { valorActual := "0".toList, valorPrevio := "Infinity".toList,
          operacion := some "+".toList, operacionCompleta := "∞ +".toList,
          operacionRealizada := false }
    ∧ elegirOperacion { valorActual := "Infinity".toList, valorPrevio := [], operacion := none,
                        operacionCompleta := "1e308 × 10 =".toList, operacionRealizada := true }
        "+".toList
      ≠ { valorActual := "Infinity".toList, valorPrevio := [], operacion := none,
          operacionCompleta := "1e308 × 10 =".toList, operacionRealizada := true }
    ∧ ejecutarTodas
        { valorActual := "Infinity".toList, valorPrevio := [], operacion := none,
          operacionCompleta := "1e308 × 10 =".toList, operacionRealizada := true }
        [.elegirOperacion "+".toList, .agregarNumero "5".toList, .calcular]
      = { valorActual := "Infinity".toList, valorPrevio := [], operacion := none,
          operacionCompleta := "∞ + 5 =".toList, operacionRealizada := true } := by
  decide

/-- C17. Result formatting: `formatearResultado(2.5)` is `"2.5"` and
`formatearResultado(2.100000000)` is `"2.1"`; and for every finite result of
magnitude at least `1e9` the output is the `toExponential(6)` string with the
trailing zeros of the mantissa (and a point left bare) and the plus sign of
the exponent removed: a mantissa ending in a non-zero digit, the marker `e`,
and directly after it the exponent digits. -/
theorem C17_formatearResultado (s : Bool) (m : Nat) (e : Int)
    (hbig : ge (abs (.fin s m e)) (ofDecimal 1 9) = true) :
    formatearResultado (ofDecimal 25 (-1)) = "2.5".toList
    ∧ formatearResultado (ofDecimal 2100000000 (-9)) = "2.1".toList
    ∧ ∃ l x z ex,
        toExponential 6 (.fin s m e) = ((l ++ [x]) ++ z) ++ 'e' :: '+' :: ex
        ∧ formatearResultado (.fin s m e) = (l ++ [x]) ++ 'e' :: ex
        ∧ isDecimalDigit x = true ∧ x ≠ '0'
        ∧ (∀ c ∈ z, c = '0' ∨ c = '.')
        ∧ (∀ c ∈ l, c ≠ 'e')
        ∧ ex ≠ [] ∧ (∀ c ∈ ex, isDecimalDigit c = true) := by
  refine ⟨by decide, by decide, ?_⟩
  have hq := fraction_ge_one_of_ge_1e9 s m e hbig
  obtain ⟨d, fr, ex, hd, hd0, hfr, hfrne, hex, hexne, hshape⟩ := toExponential_shape s m e hq
  have hrest : ∀ c ∈ '+' :: ex, c ≠ 'e' := by
    intro c hc
    rcases List.mem_cons.mp hc with hc | hc
    · rw [hc]; decide
    · exact digit_ne_of_not_digit c 'e' (hex c hc) (by decide)
  have hsg : (if s = true then ['-'] else []) = ([] : Str)
      ∨ (if s = true then ['-'] else []) = ['-'] := by
    cases s
    · exact Or.inl rfl
    · exact Or.inr rfl
  obtain ⟨l, x, z, hsplit, hz, hx, hx0, hl, hstrip⟩ :=
    stripZerosE_mantissa _ hsg d hd hd0 fr ('+' :: ex) hfr hfrne hrest
  have hform : formatearResultado (.fin s m e)
      = dropPlusE (stripZerosE (toExponential 6 (.fin s m e))) := by
    simp only [formatearResultado, isNaN, isFinite, hbig, Bool.true_or, Bool.false_eq_true,
      Bool.not_true, if_false, if_true]
  have hle : ∀ c ∈ l ++ [x], c ≠ 'e' := by
    intro c hc
    rcases List.mem_append.mp hc with hc | hc
    · exact hl c hc
    · rw [List.mem_singleton.mp hc]
      exact digit_ne_of_not_digit x 'e' hx (by decide)
  refine ⟨l, x, z, ex, ?_, ?_, hx, hx0, hz, hl, hexne, hex⟩
  · rw [hshape, ← hsplit]
    simp
  · rw [hform, hshape, hstrip, dropPlusE_append _ _ hle]

/-- C17 at 1500000000, the Number `6291456000000000 * 2^(-22)`: the output is
`"1.5e9"`. -/
theorem C17_formatearResultado_witness :
    ofNat 1500000000 = .fin false 6291456000000000 (-22)
    ∧ toExponential 6 (.fin false 6291456000000000 (-22)) = "1.500000e+9".toList
    ∧ formatearResultado (.fin false 6291456000000000 (-22)) = "1.5e9".toList
    ∧ ∃ l x z ex,
        toExponential 6 (.fin false 6291456000000000 (-22))
          = ((l ++ [x]) ++ z) ++ 'e' :: '+' :: ex
        ∧ formatearResultado (.fin false 6291456000000000 (-22)) = (l ++ [x]) ++ 'e' :: ex
        ∧ isDecimalDigit x = true ∧ x ≠ '0'
        ∧ (∀ c ∈ z, c = '0' ∨ c = '.')
        ∧ (∀ c ∈ l, c ≠ 'e')
        ∧ ex ≠ [] ∧ (∀ c ∈ ex, isDecimalDigit c = true) :=
  ⟨by decide, by decide, by decide,
    (C17_formatearResultado false 6291456000000000 (-22) (by decide)).2.2⟩

/-- C18. Thousands grouping is lossless: for an integer part of 1 to 9 digits
without a leading zero (or the single digit `0`), alone or followed by a point
and any string of fractional digits, `obtenerNumero` returns the integer part
with its grouping commas, then the point and the fractional digits unchanged;
removing the commas from the result gives back the input. -/
theorem C18_grouping_lossless (ip fp : Str)
    (hip : ∀ c ∈ ip, isDecimalDigit c = true) (hfp : ∀ c ∈ fp, isDecimalDigit c = true)
    (hlen : ip.length ≤ 9) (hlead : ip = "0".toList ∨ ∃ d t, ip = d :: t ∧ d ≠ '0') :
    obtenerNumero ip = groupThousands ip
    ∧ obtenerNumero (ip ++ '.' :: fp) = groupThousands ip ++ '.' :: fp
    ∧ sinComas (obtenerNumero ip) = ip
    ∧ sinComas (obtenerNumero (ip ++ '.' :: fp)) = ip ++ '.' :: fp := by
  obtain ⟨hnan, hloc⟩ := obtenerNumero_entero ip hip hlen hlead
  have hne : ip ≠ [] := by
    rcases hlead with h | ⟨d, t, h, _⟩ <;> rw [h] <;> simp
  have hne2 : ip ++ '.' :: fp ≠ [] := by simp
  have h1 : obtenerNumero ip = groupThousands ip := by
    unfold obtenerNumero
    simp only [if_neg hne, split_digits ip hip, List.headD_cons, hnan, Bool.false_eq_true,
      if_false, hloc]
    rfl
  have h2 : obtenerNumero (ip ++ '.' :: fp) = groupThousands ip ++ '.' :: fp := by
    unfold obtenerNumero
    simp only [if_neg hne2, split_append_point ip fp hip, split_digits fp hfp,
      List.headD_cons, hnan, Bool.false_eq_true, if_false, hloc]
    rfl
  have hcomma : (groupThousands ip).filter (fun c => c != ',') = ip :=
    sinComas_groupThousands ip (fun c hc => digit_ne_comma c (hip c hc))
  have hfpc : fp.filter (fun c => c != ',') = fp :=
    List.filter_eq_self.mpr (fun c hc => by simpa using digit_ne_comma c (hfp c hc))
  refine ⟨h1, h2, ?_, ?_⟩
  · rw [h1]; exact hcomma
  · rw [h2]
    unfold sinComas
    rw [List.filter_append, hcomma, List.filter_cons, hfpc]
    rfl

/-- C18 on `"1234567"` with the fraction `"50"`, and on the longest integer
part `"999999999"`. -/
theorem C18_grouping_lossless_witness :
    obtenerNumero "1234567".toList = "1,234,567".toList
    ∧ obtenerNumero "1234567.50".toList = "1,234,567.50".toList
    ∧ sinComas (obtenerNumero "1234567.50".toList) = "1234567.50".toList
    ∧ obtenerNumero "999999999".toList = "999,999,999".toList :=
  ⟨(C18_grouping_lossless "1234567".toList "50".toList (by decide) (by decide) (by decide)
      (Or.inr ⟨'1', "234567".toList, rfl, by decide⟩)).1.trans (by decide),
    (C18_grouping_lossless "1234567".toList "50".toList (by decide) (by decide) (by decide)
      (Or.inr ⟨'1', "234567".toList, rfl, by decide⟩)).2.1.trans (by decide),
    (C18_grouping_lossless "1234567".toList "50".toList (by decide) (by decide) (by decide)
      (Or.inr ⟨'1', "234567".toList, rfl, by decide⟩)).2.2.2,
    by decide⟩

/-- C19. The error marker is not shown in the current-value display: when
`valorActual` is `"Error"`, `obtenerNumero` gives the empty string for it and
`actualizarPantalla` writes `"0"` to the lower display; the upper display is
`operacionCompleta`. -/
theorem C19_error_display (c : Calculadora) (h : c.valorActual = "Error".toList) :
    obtenerNumero c.valorActual = []
    ∧ (actualizarPantalla c).2 = "0".toList
    ∧ (actualizarPantalla c).1 = c.operacionCompleta := by
  have h1 : obtenerNumero "Error".toList = [] := by decide
  refine ⟨by rw [h, h1], ?_, rfl⟩
  simp only [actualizarPantalla, h, h1, List.isEmpty_nil, if_true]

/-- C19 at the state `8 ÷ 0 =` leaves: the displays are the division-by-zero
message and `"0"`. -/
theorem C19_error_display_witness :
    (ejecutarTodas inicial
        [.agregarNumero "8".toList, .elegirOperacion "÷".toList, .calcular]).valorActual
      = "Error".toList
    ∧ actualizarPantalla (ejecutarTodas inicial
        [.agregarNumero "8".toList, .elegirOperacion "÷".toList, .calcular])
      = ("No se puede dividir por 0".toList, "0".toList) :=
  ⟨by decide,
    Prod.ext (C19_error_display _ (by decide)).2.2 (C19_error_display _ (by decide)).2.1⟩

/-- C20. Method `calcular` computes a result only for `+`, `−`, `×`, `÷`: when
`operacion` is anything else (the ASCII hyphen, `undefined`, ...) and both
operands parse, it assigns `operacionCompleta` and nothing else. -/
theorem C20_calcular_other_operator (c : Calculadora)
    (h1 : c.operacion ≠ some "+".toList) (h2 : c.operacion ≠ some "−".toList)
    (h3 : c.operacion ≠ some "×".toList) (h4 : c.operacion ≠ some "÷".toList)
    (hp : isNaN (parseFloat c.valorPrevio) = false)
    (ha : isNaN (parseFloat c.valorActual) = false) :
    calcular c = { c with operacionCompleta := expresion c ++ " =".toList }
    ∧ (calcular c).valorActual = c.valorActual
    ∧ (calcular c).valorPrevio = c.valorPrevio
    ∧ (calcular c).operacion = c.operacion
    ∧ (calcular c).operacionRealizada = c.operacionRealizada := by
  have key : calcular c = { c with operacionCompleta := expresion c ++ " =".toList } := by
    rw [calcular_otra_operacion c h1 h2 h3 h4, hp, ha]
    rfl
  rw [key]
  exact ⟨rfl, rfl, rfl, rfl, rfl⟩

/-- C20 with the ASCII hyphen pending over `"5"` and the entry `"3"`:
`calcular` only writes `"5 - 3 ="`, while `calcularPorcentaje` treats the same
hyphen as subtraction and stores `"0.15"`. -/
theorem C20_calcular_other_operator_witness :
    calcular { valorActual := "3".toList, valorPrevio := "5".toList,
               operacion := some "-".toList, operacionCompleta := "5 - 3".toList,
               operacionRealizada := false }
      = { valorActual := "3".toList, valorPrevio := "5".toList,
          operacion := some "-".toList, operacionCompleta := "5 - 3 =".toList,
          operacionRealizada := false }
    ∧ (calcularPorcentaje { valorActual := "3".toList, valorPrevio := "5".toList,
                            operacion := some "-".toList, operacionCompleta := "5 - 3".toList,
                            operacionRealizada := false }).valorActual = "0.15".toList :=
  ⟨(C20_calcular_other_operator _ (by decide) (by decide) (by decide) (by decide) (by decide)
      (by decide)).1.trans (by decide),
    by decide⟩

end Calculadora
